import Mathlib

/-!
Verification of the jarvis message-dispatch pipeline.

This file gives a shallow embedding, in Lean 4, of the core of the `jarvis`
repository: the per-user dispatch pipeline of `src/jarvis/main.py`
(`process_message`), the session registry and structured-output parsing of
`src/jarvis/claude_runner.py` (`ClaudeRunner.get_session_id`,
`ClaudeRunner.update_session`, the parsing section of `ClaudeRunner.run`),
and the two scheduled runners `src/scripts/proactive_checkin.py`
(`run_proactive_checkin`) and `src/scripts/scheduled_task.py`
(`run_claude_task`).

Conventions of the embedding:
* Python JSON values are modelled by `MiniJson.JValue`; `json.loads` is
  modelled by `MiniJson.jsonParse`, a recursive-descent parser for the JSON
  fragment actually exchanged with the agent (objects, arrays, strings with
  simple escapes, integers, booleans, null; no floats, no `\u` escapes —
  none of the verified properties involve those).
* Python truthiness (`or` chains, `if x:`) is modelled by `MiniJson.truthy`
  and `MiniJson.pyOr`.
* Fallible Python code is modelled with `Except PyErr`; `dict.get` on a
  non-dict object raises `AttributeError`, modelled by `getAttr?`.
* Wall-clock time is modelled as an integer number of seconds.
* The concurrent dispatch loop of `main.py` is modelled as a small-step
  transition system (`Dispatch.step`): each atomic step corresponds to a
  stretch of `process_message` between two `await` suspension points of the
  cooperative (asyncio) scheduler.  External effects (media download,
  transcription, the agent process run) are supplied as parameters of the
  corresponding actions.
-/

namespace MiniJson

/-- A JSON value, as produced by Python's `json.loads` (floats omitted). -/
inductive JValue where
  | null : JValue
  | bool (b : Bool) : JValue
  | num (n : Int) : JValue
  | str (s : String) : JValue
  | arr (elems : List JValue) : JValue
  | obj (fields : List (String × JValue)) : JValue
deriving Repr, Inhabited

/-- Skip JSON whitespace. -/
def skipWs : List Char → List Char
  | c :: cs => if c = ' ' ∨ c = '\n' ∨ c = '\t' ∨ c = '\r' then skipWs cs else c :: cs
  | [] => []

/-- Parse the body of a JSON string literal (after the opening quote),
returning the characters and the rest of the input.  Handles the simple
escapes; `\u` escapes are rejected (out of scope for the repository's data). -/
def parseStrChars : List Char → Option (List Char × List Char)
  | [] => none
  | '"' :: cs => some ([], cs)
  | '\\' :: e :: cs =>
    match parseStrChars cs with
    | none => none
    | some (s, rest) =>
      if e = '"' then some ('"' :: s, rest)
      else if e = '\\' then some ('\\' :: s, rest)
      else if e = '/' then some ('/' :: s, rest)
      else if e = 'n' then some ('\n' :: s, rest)
      else if e = 't' then some ('\t' :: s, rest)
      else if e = 'r' then some ('\r' :: s, rest)
      else none
  | c :: cs =>
    match parseStrChars cs with
    | none => none
    | some (s, rest) => some (c :: s, rest)

/-- Parse a run of decimal digits into a natural number. -/
def parseDigits : List Char → Nat → Option (Nat × List Char)
  | c :: cs, acc =>
    if c.isDigit then
      match parseDigits cs (acc * 10 + (c.toNat - '0'.toNat)) with
      | some r => some r
      | none => some (acc * 10 + (c.toNat - '0'.toNat), cs)
    else none
  | [], _ => none

/-- Parse an integer JSON number (optionally negated). -/
def parseNum : List Char → Option (JValue × List Char)
  | '-' :: cs =>
    match parseDigits cs 0 with
    | some (n, rest) => some (.num (-(n : Int)), rest)
    | none => none
  | cs =>
    match parseDigits cs 0 with
    | some (n, rest) => some (.num (n : Int), rest)
    | none => none

mutual

/-- Fuel-indexed JSON value parser. -/
def parseVal : Nat → List Char → Option (JValue × List Char)
  | 0, _ => none
  | fuel + 1, input =>
    match skipWs input with
    | [] => none
    | 'n' :: 'u' :: 'l' :: 'l' :: rest => some (.null, rest)
    | 't' :: 'r' :: 'u' :: 'e' :: rest => some (.bool true, rest)
    | 'f' :: 'a' :: 'l' :: 's' :: 'e' :: rest => some (.bool false, rest)
    | '"' :: cs =>
      match parseStrChars cs with
      | some (s, rest) => some (.str ⟨s⟩, rest)
      | none => none
    | '[' :: cs =>
      (match skipWs cs with
       | ']' :: rest => some (.arr [], rest)
       | cs' => parseElems fuel cs' [])
    | '{' :: cs =>
      (match skipWs cs with
       | '}' :: rest => some (.obj [], rest)
       | cs' => parseFields fuel cs' [])
    | c :: cs =>
      if c = '-' ∨ c.isDigit then parseNum (c :: cs) else none

/-- Parse the elements of a non-empty JSON array. -/
def parseElems : Nat → List Char → List JValue → Option (JValue × List Char)
  | 0, _, _ => none
  | fuel + 1, input, acc =>
    match parseVal fuel input with
    | none => none
    | some (v, rest) =>
      match skipWs rest with
      | ',' :: rest' => parseElems fuel rest' (acc ++ [v])
      | ']' :: rest' => some (.arr (acc ++ [v]), rest')
      | _ => none

/-- Parse the fields of a non-empty JSON object. -/
def parseFields : Nat → List Char → List (String × JValue) →
    Option (JValue × List Char)
  | 0, _, _ => none
  | fuel + 1, input, acc =>
    match skipWs input with
    | '"' :: cs =>
      match parseStrChars cs with
      | none => none
      | some (k, rest) =>
        match skipWs rest with
        | ':' :: rest' =>
          (match parseVal fuel rest' with
           | none => none
           | some (v, rest'') =>
             match skipWs rest'' with
             | ',' :: r3 => parseFields fuel r3 (acc ++ [(⟨k⟩, v)])
             | '}' :: r3 => some (.obj (acc ++ [(⟨k⟩, v)]), r3)
             | _ => none)
        | _ => none
    | _ => none

end

/-- Model of Python's `json.loads`: parse a complete JSON document,
requiring the whole input to be consumed. -/
def jsonParse (s : String) : Option JValue :=
  match parseVal (s.length + 1) s.data with
  | some (v, rest) => if skipWs rest = [] then some v else none
  | none => none

/-- Python truthiness of a JSON value (`if x:`). -/
def truthy : JValue → Bool
  | .null => false
  | .bool b => b
  | .num n => n != 0
  | .str s => s != ""
  | .arr l => !l.isEmpty
  | .obj l => !l.isEmpty

/-- Python `a or b` on JSON values. -/
def pyOr (a b : JValue) : JValue := if truthy a then a else b

/-- The Python exceptions the embedded code can raise. -/
inductive PyErr where
  | runtimeError (msg : String) : PyErr
  | attributeError : PyErr
deriving DecidableEq, Repr

/-- Python `v.get(k)` (`dict.get`, absent key ↦ `None`); on a non-dict
value this raises `AttributeError`. -/
def getAttr? (v : JValue) (k : String) : Except PyErr JValue :=
  match v with
  | .obj fields => .ok (((fields.find? (fun p => p.1 == k)).map Prod.snd).getD .null)
  | _ => .error .attributeError

end MiniJson

namespace ClaudeRunnerM

open MiniJson

/-- Constant `SESSION_TIMEOUT = 30 * 60` (src/jarvis/claude_runner.py, line 15). -/
def SESSION_TIMEOUT : Int := 30 * 60

/-- One per-user record of `data/sessions.json`: the fields read by
`get_session_id` (`session_id`, absent modelled as `none`, and
`last_activity` with Python default `0`). -/
structure SessionEntry where
  session_id : Option String
  last_activity : Int
deriving DecidableEq, Repr

/-- The session tracking file, a JSON object keyed by user id. -/
def Sessions := List (String × SessionEntry)

/-- Model of `sessions.get(user_id, {})`. -/
def Sessions.lookup (sessions : Sessions) (user_id : String) : Option SessionEntry :=
  (List.find? (fun p => p.1 == user_id) sessions).map Prod.snd

/-- Model of `sessions.pop(user_id, None)` followed by a save: drop the record. -/
def Sessions.erase (sessions : Sessions) (user_id : String) : Sessions :=
  List.filter (fun p => p.1 != user_id) sessions

/-- Model of `sessions[user_id] = {...}` followed by a save: upsert the record. -/
def Sessions.insert (sessions : Sessions) (user_id : String) (e : SessionEntry) :
    Sessions :=
  (user_id, e) :: Sessions.erase sessions user_id

/-- Model of `ClaudeRunner.get_session_id` (src/jarvis/claude_runner.py, lines 83-101):
returns the stored session id for `user_id` unless the session has timed out,
in which case the record is deleted and `none` returned.  `now` models
`time.time()` in whole seconds.  Returns the result together with the
session store after the call (the store changes exactly on expiry). -/
def get_session_id (sessions : Sessions) (user_id : String) (now : Int) :
    Option String × Sessions :=
  let session_data := Sessions.lookup sessions user_id
  let session_id := (session_data.map (·.session_id)).getD none
  let last_activity := (session_data.map (·.last_activity)).getD 0
  match session_id with
  | none => (none, sessions)
  | some sid =>
    if now - last_activity > SESSION_TIMEOUT then
      (none, Sessions.erase sessions user_id)
    else
      (some sid, sessions)

/-- Model of `ClaudeRunner.update_session` (src/jarvis/claude_runner.py, lines
103-114): delete the record when `finished`, otherwise upsert it with
`last_activity := now`. -/
def update_session (sessions : Sessions) (user_id session_id : String)
    (finished : Bool) (now : Int) : Sessions :=
  if finished then Sessions.erase sessions user_id
  else Sessions.insert sessions user_id ⟨some session_id, now⟩

/-- The `ClaudeResponse` dataclass (src/jarvis/claude_runner.py, lines
37-44).  The two flags are stored as the Python truthiness of the parsed
values (every use of these fields in the repository is in boolean position);
`session_id` is kept as the raw JSON value the code computes. -/
structure ParsedResponse where
  conversation_finished : Bool
  code_changes : Bool
  raw_output : String
  session_id : JValue
deriving Repr

/-- The output-normalization section of `ClaudeRunner.run` applied to an
already-decoded JSON envelope (src/jarvis/claude_runner.py, lines 200-219):
`result = output.get("structured_output") or output.get("result") or output`,
a string result is decoded (empty or undecodable strings fall back to
`{"conversation_finished": False}`), and the flags are read with
`result.get(..., False)`. -/
def parse_envelope (output : JValue) (session_id : Option String) :
    Except PyErr ParsedResponse := do
  -- new_session_id = output.get("session_id") or session_id   (line 201)
  let sidVal ← getAttr? output "session_id"
  let new_session_id : JValue :=
    pyOr sidVal (match session_id with | some s => .str s | none => .null)
  -- result = output.get("structured_output") or output.get("result") or output
  let r0 ← getAttr? output "structured_output"
  let r1 ← getAttr? output "result"
  let result0 : JValue := pyOr r0 (pyOr r1 output)
  let result : JValue ←
    match result0 with
    | .str s =>
      if s == "" then pure (JValue.obj [("conversation_finished", .bool false)])
      else
        match jsonParse s with
        | some v => pure v
        | none => pure (JValue.obj [("conversation_finished", .bool false)])
    | v => pure v
  let cf ← getAttr? result "conversation_finished"
  let cc ← getAttr? result "code_changes"
  pure { conversation_finished := truthy cf
         code_changes := truthy cc
         raw_output := ""
         session_id := new_session_id }

/-- The parsing boundary of `ClaudeRunner.run` (src/jarvis/claude_runner.py,
lines 193-219), starting from the raw standard output of the agent process:
`json.loads` on the whole output (invalid JSON raises a `RuntimeError`,
lines 195-198), then envelope normalization. -/
def parse_claude_output (raw_output : String) (session_id : Option String) :
    Except PyErr ParsedResponse :=
  match jsonParse raw_output with
  | none => .error (.runtimeError "Claude returned invalid JSON")
  | some output =>
    (parse_envelope output session_id).map
      (fun r => { r with raw_output := raw_output })

/-- Model of `fields.get(k)` on a JSON object known to be a dict (absent ↦ null). -/
def objGet (fields : List (String × JValue)) (k : String) : JValue :=
  ((List.find? (fun p => p.1 == k) fields).map Prod.snd).getD .null

/-- The result-selection chain of `ClaudeRunner.run` line 204:
`output.get("structured_output") or output.get("result") or output`,
for an envelope that is a JSON object. -/
def select_result (fields : List (String × JValue)) : JValue :=
  pyOr (objGet fields "structured_output")
    (pyOr (objGet fields "result") (.obj fields))

/-- Model of `output.get("session_id") or session_id` (line 201) for an object
envelope. -/
def select_session (fields : List (String × JValue)) (session_id : Option String) :
    JValue :=
  pyOr (objGet fields "session_id")
    (match session_id with | some s => .str s | none => .null)

end ClaudeRunnerM

namespace Scripts

open MiniJson

/-- The observable behaviour of one external agent process: how long it
runs (wall-clock seconds), its exit code, and its standard output. -/
structure ProcOutcome where
  duration : Nat
  returncode : Int
  stdout : String
deriving DecidableEq, Repr

/-- Model of `run_proactive_checkin` (src/scripts/proactive_checkin.py, lines
96-135), from process spawn onwards: `asyncio.wait_for` with
`timeout_seconds = 1800` kills the process on timeout and returns
`{"conversation_finished": True}`; a non-zero exit returns the same
default; otherwise the output is parsed with the structured-output /
result / inline fallback chain, and a `json.JSONDecodeError` anywhere in
that chain degrades to the same default. -/
def run_proactive_checkin (p : ProcOutcome) : Except PyErr JValue :=
  if p.duration > 1800 then
    .ok (JValue.obj [("conversation_finished", .bool true)])
  else if p.returncode != 0 then
    .ok (JValue.obj [("conversation_finished", .bool true)])
  else
    match jsonParse p.stdout with
    | none => .ok (JValue.obj [("conversation_finished", .bool true)])
    | some output => do
      let r0 ← getAttr? output "structured_output"
      let r1 ← getAttr? output "result"
      let result : JValue := pyOr r0 (pyOr r1 output)
      match result with
      | .str s =>
        if s == "" then .ok (JValue.obj [("conversation_finished", .bool true)])
        else
          match jsonParse s with
          | some v => .ok v
          | none => .ok (JValue.obj [("conversation_finished", .bool true)])
      | v => .ok v

/-- Model of `run_claude_task` (src/scripts/scheduled_task.py, lines 81-105), from
process spawn onwards.  The scheduled-task runner awaits
`process.communicate()` with **no** timeout, so the outcome never depends
on `duration`: a non-zero exit raises, undecodable output (top-level or
nested string) degrades to `{"conversation_finished": True, "skipped":
False}`. -/
def run_claude_task (p : ProcOutcome) : Except PyErr JValue :=
  if p.returncode != 0 then .error (.runtimeError "Task failed")
  else
    match jsonParse p.stdout with
    | none =>
      .ok (JValue.obj [("conversation_finished", .bool true), ("skipped", .bool false)])
    | some output => do
      let r0 ← getAttr? output "structured_output"
      let r1 ← getAttr? output "result"
      let result : JValue := pyOr r0 (pyOr r1 output)
      match result with
      | .str s =>
        match jsonParse s with
        | some v => .ok v
        | none =>
          .ok (JValue.obj
            [("conversation_finished", .bool true), ("skipped", .bool false)])
      | v => .ok v

end Scripts

namespace Dispatch

/-- The `type` field of a parsed webhook message (src/jarvis/main.py uses the
string values `"text"`, `"audio"`, `"image"`, `"reaction"`; `other` stands
for any further string). -/
inductive MsgType where
  | text | audio | image | reaction | other
deriving DecidableEq, Repr

/-- The `message_info` dict produced by `whatsapp.parse_webhook_message`
(fields as read by `process_message`; a `none` or empty string is falsy,
as in Python). -/
structure MsgInfo where
  from_user : String
  name : Option String
  message_id : Option String
  mtype : MsgType
  text : Option String
  audio_id : Option String
  image_id : Option String
  image_caption : Option String
  reply_to_message_id : Option String
  reaction_message_id : Option String
  reaction_emoji : Option String
deriving DecidableEq, Repr

/-- Modelled from the spec: a record of the Message Archive (`MessageStore`,
whose source file is not under src/).  Per §2 and §4.1 of the design it is a
durable key→record store mapping a platform message id to `{content,
sender}`; `store` inserts a record, `get` looks one up, and a message id
counts as already processed exactly when it is present in the archive. -/
structure ArchivedMsg where
  content : String
  sender : String
deriving DecidableEq, Repr

/-- One entry of `_pending_messages[user_id]` (src/jarvis/main.py, lines
207-213). -/
structure QueuedMsg where
  message : String
  is_voice : Bool
  image_path : Option String
  quoted_message : Option String
  timestamp : String
deriving DecidableEq, Repr

/-- The argument record of one `claude.run(...)` invocation (keyword
arguments of src/jarvis/claude_runner.py `ClaudeRunner.run`; omitted
keywords take their Python defaults). -/
structure RunCall where
  message : String
  user_id : String
  user_name : Option String
  is_voice : Bool
  image_path : Option String
  quoted_message : Option String
deriving DecidableEq, Repr

/-- The fields of a `ClaudeResponse` that `process_message` inspects. -/
structure RunResult where
  conversation_finished : Bool
  code_changes : Bool
deriving DecidableEq, Repr

/-- Outcomes of the awaited external operations of the message-type dispatch
(media download, transcription) and the environmental choices (temp file
name): these are suspension points whose results the environment picks. -/
structure ExtEnv where
  fail : Bool
  transcript : String
  contentType : String
  tempBase : String
deriving DecidableEq, Repr

/-- The program counter of one `process_message` task, marking the atomic
stretches between `await` suspension points:
* `arrived` — the task was spawned (`asyncio.create_task`, line 118) but has
  not run yet;
* `resolving` — past the dedup check and reply-context lookup (lines
  129-145), about to run the message-type dispatch;
* `ready` — message content resolved; about to run the synchronous stretch
  store → gate check → lock-or-enqueue (lines 193-228);
* `invoking` — holds the user's lock, the initial `claude.run` (line 221) is
  in flight;
* `draining popped needs_restart` — holds the lock, a drain-loop
  `claude.run` (line 244) is in flight for the popped queue `popped`;
* `done` — the coroutine returned ( `finally` executed). -/
inductive Loc where
  | arrived
  | resolving
  | ready
  | invoking
  | draining (popped : List QueuedMsg) (needs_restart : Bool)
  | done
deriving DecidableEq, Repr

/-- One `process_message` coroutine and its local variables. -/
structure Task where
  info : MsgInfo
  quoted_message : Option String
  user_message : String
  is_voice : Bool
  image_path : Option String
  pc : Loc
deriving DecidableEq, Repr

/-- The process-wide state of src/jarvis/main.py: the spawned
`process_message` tasks, the module-level mutable maps, the Message Archive,
plus observation traces (the `claude.run` invocations made and the temp
files unlinked) and whether `os._exit` was called. -/
structure SysState where
  tasks : List Task
  processing : List String
  store : List (String × ArchivedMsg)
  locks : List (String × Bool)
  pending : List (String × List QueuedMsg)
  calls : List RunCall
  deleted : List String
  exited : Option Nat
deriving DecidableEq, Repr

/-- Total lookup in an association list with a default. -/
def lookupD {α : Type} (m : List (String × α)) (k : String) (dflt : α) : α :=
  ((List.find? (fun p => p.1 == k) m).map Prod.snd).getD dflt

/-- Update (or add) a key in an association list. -/
def setK {α : Type} (m : List (String × α)) (k : String) (v : α) :
    List (String × α) :=
  match m with
  | [] => [(k, v)]
  | (k', v') :: rest => if k' == k then (k, v) :: rest else (k', v') :: setK rest k v

/-- State of `_get_user_lock(u).locked()` (an absent lock is unlocked). -/
def lockD (s : SysState) (u : String) : Bool := lookupD s.locks u false

/-- Model of `_pending_messages.get(u)` (an absent key behaves as the empty queue). -/
def pendingD (s : SysState) (u : String) : List QueuedMsg :=
  lookupD s.pending u []

/-- Modelled from the spec: `message_store.get(id)` — archive lookup. -/
def storeGet (store : List (String × ArchivedMsg)) (mid : String) :
    Option ArchivedMsg :=
  (List.find? (fun p => p.1 == mid) store).map Prod.snd

/-- Modelled from the spec: `message_store.is_processed(id)` — archive
membership. -/
def is_processed (store : List (String × ArchivedMsg)) (mid : String) : Bool :=
  (storeGet store mid).isSome

/-- Modelled from the spec: `message_store.store(id, content, sender)`. -/
def storePut (store : List (String × ArchivedMsg)) (mid content sender : String) :
    List (String × ArchivedMsg) :=
  (mid, ⟨content, sender⟩) :: store

/-- Python truthiness of an optional string field. -/
def optTruthy : Option String → Bool
  | some s => s != ""
  | none => false

/-- The coalesced drain prompt (src/jarvis/main.py, lines 237-242): a header
line followed by each queued message prefixed with its enqueue timestamp,
joined by newlines (the `parts` list is built by successive appends). -/
def combined_prompt (queued : List QueuedMsg) : String :=
  String.intercalate "\n"
    (queued.foldl (fun parts msg => parts ++ ["(" ++ msg.timestamp ++ ") " ++ msg.message])
      ["[Messages received while you were working]\n"])

/-- The temp-file suffix choice for an image download (lines 174-178). -/
def imageExt (contentType : String) : String :=
  if List.IsInfix "png".data contentType.data then ".png"
  else if List.IsInfix "webp".data contentType.data then ".webp"
  else ".jpg"

/-- The reply-context lookup (lines 139-145):
`if reply_to_id := message_info.get("reply_to_message_id"): ...`. -/
def resolveQuoted (store : List (String × ArchivedMsg)) (info : MsgInfo) :
    Option String :=
  match info.reply_to_message_id with
  | some rid => if rid != "" then (storeGet store rid).map (·.content) else none
  | none => none

/-- Model of `user_name or user_id` (line 195). -/
def nameOr (name : Option String) (user_id : String) : String :=
  match name with
  | some n => if n != "" then n else user_id
  | none => user_id

/-- Removal from the in-flight set: `_processing_messages.discard(id)`
(line 276); messages without an id are not tracked. -/
def discardId (processing : List String) (mid? : Option String) : List String :=
  match mid? with
  | some mid => processing.filter (fun x => x != mid)
  | none => processing

/-- The `finally` block of `process_message` (lines 270-276) followed by the
coroutine's return: unlink the temp image if the local `image_path` is set,
and remove the message id from the in-flight set. -/
def finishTask (s : SysState) (i : Nat) (t : Task) : SysState :=
  { s with
    tasks := s.tasks.set i { t with pc := .done }
    deleted := s.deleted ++ (match t.image_path with | some p => [p] | none => [])
    processing := discardId s.processing t.info.message_id }

/-- The argument record of the initial `claude.run` call (lines 221-228). -/
def initialCall (t : Task) : RunCall :=
  { message := t.user_message
    user_id := t.info.from_user
    user_name := t.info.name
    is_voice := t.is_voice
    image_path := t.image_path
    quoted_message := t.quoted_message }

/-- The argument record of a drain-loop `claude.run` call (lines 244-248):
only `message`, `user_id` and `user_name` are passed; `is_voice`,
`image_path` and `quoted_message` take their defaults. -/
def drainCall (u : String) (name : Option String) (q : List QueuedMsg) : RunCall :=
  { message := combined_prompt q
    user_id := u
    user_name := name
    is_voice := false
    image_path := none
    quoted_message := none }

/-- The scheduler spawns a new `process_message` task for a parsed webhook
message (line 118). -/
def stepArrive (s : SysState) (info : MsgInfo) : SysState :=
  { s with
    tasks := s.tasks ++
      [{ info := info, quoted_message := none, user_message := ""
         is_voice := false, image_path := none, pc := .arrived }] }

/-- First synchronous stretch of `process_message` (lines 129-145): the
atomic dedup check-then-insert against the in-flight set and the archive,
then the reply-context lookup.  A duplicate returns at once (its id was
never inserted, so nothing is discarded). -/
def stepAdmitMsg (s : SysState) (i : Nat) : Option SysState :=
  match s.tasks.get? i with
  | none => none
  | some t =>
    if t.pc = .arrived then
      match t.info.message_id with
      | some mid =>
        if s.processing.contains mid || is_processed s.store mid then
          some { s with tasks := s.tasks.set i { t with pc := .done } }
        else
          let t' := { t with quoted_message := resolveQuoted s.store t.info, pc := Loc.resolving }
          some { s with processing := mid :: s.processing, tasks := s.tasks.set i t' }
      | none =>
        let t' := { t with quoted_message := resolveQuoted s.store t.info, pc := Loc.resolving }
        some { s with tasks := s.tasks.set i t' }
    else none

/-- The message-type dispatch (lines 148-191).  For voice and image messages
the awaited download/transcription may fail (`env.fail`), in which case the
exception is handled at lines 263-269 and the task finishes through
`finally`; an unsupported type sends an apology and returns.  (The session
log write and the apology send are external effects with no bearing on the
dispatch state and are not tracked.) -/
def stepResolve (s : SysState) (i : Nat) (env : ExtEnv) : Option SysState :=
  match s.tasks.get? i with
  | none => none
  | some t =>
    if t.pc = .resolving then
      if t.info.mtype = .reaction ∧ optTruthy t.info.reaction_emoji then
        let emoji := t.info.reaction_emoji.getD ""
        let reacted : Option String :=
          match t.info.reaction_message_id with
          | some rid => if rid != "" then (storeGet s.store rid).map (·.content) else none
          | none => none
        let user_message :=
          match reacted with
          | some c => "[reacted with " ++ emoji ++ " to: \"" ++ c ++ "\"]"
          | none => "[reacted with " ++ emoji ++ "]"
        let t' := { t with user_message := user_message, is_voice := false, pc := Loc.ready }
        some { s with tasks := s.tasks.set i t' }
      else if t.info.mtype = .audio ∧ optTruthy t.info.audio_id then
        if env.fail then some (finishTask s i t)
        else
          let t' := { t with user_message := env.transcript, is_voice := true, pc := Loc.ready }
          some { s with tasks := s.tasks.set i t' }
      else if t.info.mtype = .image ∧ optTruthy t.info.image_id then
        if env.fail then some (finishTask s i t)
        else
          let path := env.tempBase ++ imageExt env.contentType
          let user_message :=
            match t.info.image_caption with
            | some c => if c != "" then c else "what do you see in this image?"
            | none => "what do you see in this image?"
          let t' := { t with user_message := user_message, is_voice := false,
                             image_path := some path, pc := Loc.ready }
          some { s with tasks := s.tasks.set i t' }
      else if optTruthy t.info.text then
        let t' := { t with user_message := t.info.text.getD "", is_voice := false, pc := Loc.ready }
        some { s with tasks := s.tasks.set i t' }
      else
        some (finishTask s i t)
    else none

/-- Second synchronous stretch (lines 193-228): archive the incoming message,
then in the same atomic step check the per-user lock and either enqueue
(lines 203-216; the temp image's ownership transfers to the queue entry and
the task returns through `finally`) or acquire the lock and start the
initial `claude.run`.  `ts` is `datetime.now().strftime("%H:%M")`. -/
def stepGateEnter (s : SysState) (i : Nat) (ts : String) : Option SysState :=
  match s.tasks.get? i with
  | none => none
  | some t =>
    if t.pc = .ready then
      let u := t.info.from_user
      let store' :=
        match t.info.message_id with
        | some mid => storePut s.store mid t.user_message (nameOr t.info.name u)
        | none => s.store
      if lockD s u then
        let entry : QueuedMsg :=
          { message := t.user_message, is_voice := t.is_voice
            image_path := t.image_path, quoted_message := t.quoted_message
            timestamp := ts }
        let t' := { t with image_path := none, pc := Loc.done }
        some { s with
          store := store'
          pending := setK s.pending u (pendingD s u ++ [entry])
          tasks := s.tasks.set i t'
          processing := discardId s.processing t.info.message_id }
      else
        some { s with
          store := store'
          locks := setK s.locks u true
          calls := s.calls ++ [initialCall t]
          tasks := s.tasks.set i { t with pc := .invoking } }
    else none

/-- The code after the drain loop (lines 258-261) and the exits of the
`async with` and `try` blocks: on `needs_restart` the process calls
`os._exit(0)` immediately (nothing else runs — the lock is not released and
`finally` is skipped); otherwise the lock is released and the task finishes
through `finally`. -/
def stepComplete (s : SysState) (i : Nat) (t : Task) (needs : Bool) : SysState :=
  if needs then { s with exited := some 0 }
  else finishTask { s with locks := setK s.locks t.info.from_user false } i t

/-- The `while _pending_messages.get(user_id)` check (line 233) after a
completed `claude.run`: either drain the entire current queue into one
coalesced follow-up call (lines 234-248) or fall through to line 258. -/
def stepAfterRun (s : SysState) (i : Nat) (t : Task) (needs : Bool) : SysState :=
  if (pendingD s t.info.from_user).isEmpty then stepComplete s i t needs
  else
    { s with
      pending := setK s.pending t.info.from_user []
      calls := s.calls ++
        [drainCall t.info.from_user t.info.name (pendingD s t.info.from_user)]
      tasks := s.tasks.set i
        { t with pc := Loc.draining (pendingD s t.info.from_user) needs } }

/-- The initial `claude.run` returned `r` (line 221 resumes, lines
230-233). -/
def stepInvokeOk (s : SysState) (i : Nat) (r : RunResult) : Option SysState :=
  match s.tasks.get? i with
  | none => none
  | some t =>
    if t.pc = .invoking then some (stepAfterRun s i t r.code_changes) else none

/-- The initial `claude.run` raised (line 221): leaving the `async with`
releases the lock, the handler at lines 263-269 sends an apology, and the
task finishes through `finally`.  The pending queue is untouched — the drain
loop is never reached. -/
def stepInvokeFail (s : SysState) (i : Nat) : Option SysState :=
  match s.tasks.get? i with
  | none => none
  | some t =>
    if t.pc = .invoking then
      some (finishTask { s with locks := setK s.locks t.info.from_user false } i t)
    else none

/-- A drain-loop `claude.run` returned `r` (line 244 resumes): the popped
entries' queued image files are unlinked (lines 250-253), `needs_restart`
absorbs `r.code_changes` (lines 255-256), and the queue is re-checked. -/
def stepDrainOk (s : SysState) (i : Nat) (r : RunResult) : Option SysState :=
  match s.tasks.get? i with
  | none => none
  | some t =>
    match t.pc with
    | .draining q needs =>
      let s1 := { s with deleted := s.deleted ++ q.filterMap (·.image_path) }
      some (stepAfterRun s1 i t (needs || r.code_changes))
    | _ => none

/-- A drain-loop `claude.run` raised (line 244): the popped entries are
abandoned (they were removed from the queue and are in no later call, and
the exception skips their image cleanup); the lock is released and the task
finishes through `finally`. -/
def stepDrainFail (s : SysState) (i : Nat) : Option SysState :=
  match s.tasks.get? i with
  | none => none
  | some t =>
    match t.pc with
    | .draining _ _ =>
      some (finishTask { s with locks := setK s.locks t.info.from_user false } i t)
    | _ => none

/-- One scheduler action: which task runs its next atomic stretch, and the
outcome of the external operation that stretch waited on. -/
inductive Action where
  | arrive (info : MsgInfo)
  | admitMsg (i : Nat)
  | resolve (i : Nat) (env : ExtEnv)
  | gateEnter (i : Nat) (ts : String)
  | invokeOk (i : Nat) (r : RunResult)
  | invokeFail (i : Nat)
  | drainOk (i : Nat) (r : RunResult)
  | drainFail (i : Nat)
deriving DecidableEq, Repr

/-- The small-step transition function.  After `os._exit` nothing runs. -/
def step (s : SysState) (a : Action) : Option SysState :=
  if s.exited.isSome then none
  else
    match a with
    | .arrive info => some (stepArrive s info)
    | .admitMsg i => stepAdmitMsg s i
    | .resolve i env => stepResolve s i env
    | .gateEnter i ts => stepGateEnter s i ts
    | .invokeOk i r => stepInvokeOk s i r
    | .invokeFail i => stepInvokeFail s i
    | .drainOk i r => stepDrainOk s i r
    | .drainFail i => stepDrainFail s i

/-- Run a list of actions. -/
def runFrom (s : SysState) (acts : List Action) : Option SysState :=
  match acts with
  | [] => some s
  | a :: rest =>
    match step s a with
    | some s' => runFrom s' rest
    | none => none

/-- The fresh-process state. -/
def init : SysState :=
  { tasks := [], processing := [], store := [], locks := []
    pending := [], calls := [], deleted := [], exited := none }

/-- States the system can be in. -/
def Reachable (s : SysState) : Prop := ∃ acts, runFrom init acts = some s

/-- Whether a task's program counter sits at an awaited `claude.run`. -/
def Loc.isInflight : Loc → Bool
  | .invoking => true
  | .draining _ _ => true
  | _ => false

/-- Whether a task counts as an in-flight agent invocation for user `u`. -/
def inflP (u : String) (t : Task) : Bool :=
  t.info.from_user == u && t.pc.isInflight

/-- Number of in-flight agent invocations for user `u`. -/
def inflight (s : SysState) (u : String) : Nat :=
  s.tasks.countP (inflP u)

/-- Whether a task is between admission and terminal handling (its id, if
any, is a member of the in-flight admission set). -/
def Loc.isActive : Loc → Bool
  | .resolving => true
  | .ready => true
  | .invoking => true
  | .draining _ _ => true
  | _ => false

/-- The id a task currently accounts for in the admission set. -/
def taskActiveId (t : Task) : Option String :=
  if t.pc.isActive then t.info.message_id else none

/-- The ids of the currently active tasks. -/
def activeIds (s : SysState) : List String :=
  s.tasks.filterMap taskActiveId

/-- The inductive invariant of the dispatch system:
1. at most one agent invocation is in flight per user;
2. a free user lock means no invocation is in flight for that user;
3. the in-flight admission set holds exactly the ids of the active tasks;
4. active tasks have pairwise distinct ids;
5. the admission set has no duplicates;
6. every task whose `claude.run` is in flight has its message (if it carries
   an id) already archived. -/
def Inv (s : SysState) : Prop :=
  (∀ u, inflight s u ≤ 1) ∧
  (∀ u, lockD s u = false → inflight s u = 0) ∧
  (∀ mid, mid ∈ s.processing ↔ mid ∈ activeIds s) ∧
  (activeIds s).Nodup ∧
  s.processing.Nodup ∧
  (∀ t ∈ s.tasks, t.pc.isInflight = true →
    ∀ mid, t.info.message_id = some mid → is_processed s.store mid = true)

/-- Example fixture: a plain text message. -/
def exText (mid txt : String) : MsgInfo :=
  { from_user := "u1", name := some "Alice", message_id := some mid
    mtype := .text, text := some txt, audio_id := none, image_id := none
    image_caption := none, reply_to_message_id := none
    reaction_message_id := none, reaction_emoji := none }

/-- Example fixture: an image message with a caption. -/
def exImage (mid : String) : MsgInfo :=
  { from_user := "u1", name := some "Alice", message_id := some mid
    mtype := .image, text := none, audio_id := none, image_id := some "IMG9"
    image_caption := some "look", reply_to_message_id := none
    reaction_message_id := none, reaction_emoji := none }

/-- Example fixture: a trivial external environment for text messages. -/
def exEnv : ExtEnv := ⟨false, "", "", ""⟩

/-- Example fixture: the environment for a successfully downloaded png. -/
def exEnvImg : ExtEnv := ⟨false, "", "image/png", "/tmp/x"⟩

/-- Example fixture: a state where user u1's gate is held and a second text
message has been admitted, resolved and is about to enter the gate. -/
def exBusy : SysState :=
  { tasks := [{ info := exText "A2" "again", quoted_message := none
                user_message := "again", is_voice := false, image_path := none
                pc := .ready }]
    processing := ["A2"], store := [("A2", ⟨"again", "Alice"⟩)]
    locks := [("u1", true)], pending := [], calls := [], deleted := []
    exited := none }

/-- Example fixture: a state where the holder's initial `claude.run` for u1
is in flight and one message is queued. -/
def exInvoking : SysState :=
  { tasks := [{ info := exText "A1" "hi", quoted_message := none
                user_message := "hi", is_voice := false, image_path := none
                pc := .invoking }]
    processing := ["A1"], store := [("A1", ⟨"hi", "Alice"⟩)]
    locks := [("u1", true)]
    pending := [("u1", [⟨"again", false, none, none, "10:01"⟩])]
    calls := [⟨"hi", "u1", some "Alice", false, none, none⟩], deleted := []
    exited := none }

/-- Trace: a text message starts an invocation, a second one is queued while
the gate is held, then the holder's invocation raises. -/
def c3acts : List Action :=
  [.arrive (exText "A1" "hi"), .admitMsg 0, .resolve 0 exEnv, .gateEnter 0 "10:00",
   .arrive (exText "A2" "again"), .admitMsg 1, .resolve 1 exEnv, .gateEnter 1 "10:01",
   .invokeFail 0]

/-- Trace: a text message starts an invocation that returns with
`code_changes` set and an empty queue. -/
def c7acts : List Action :=
  [.arrive (exText "A1" "hi"), .admitMsg 0, .resolve 0 exEnv, .gateEnter 0 "10:00",
   .invokeOk 0 ⟨false, true⟩]

/-- The c7 trace up to the point where the invocation is in flight. -/
def c7preacts : List Action :=
  [.arrive (exText "A1" "hi"), .admitMsg 0, .resolve 0 exEnv, .gateEnter 0 "10:00"]

/-- The state with the c7 invocation in flight. -/
def c7pre : SysState := (runFrom init c7preacts).getD init

/-- The state after the c7 invocation returns with `code_changes = true`. -/
def c7post : SysState :=
  (step c7pre (.invokeOk 0 ⟨false, true⟩)).getD init

/-- Trace: a text message starts an invocation; an image message arrives
while the gate is held and is queued (its temp file ownership transfers to
the queue entry). -/
def c9acts : List Action :=
  [.arrive (exText "A1" "hi"), .admitMsg 0, .resolve 0 exEnv, .gateEnter 0 "10:00",
   .arrive (exImage "A3"), .admitMsg 1, .resolve 1 exEnvImg, .gateEnter 1 "10:02"]

/-- The c9 trace continued: the holder completes and the queue is drained. -/
def c9actsFull : List Action :=
  c9acts ++ [.invokeOk 0 ⟨false, false⟩, .drainOk 0 ⟨false, false⟩]

/-- Trace: one admitted and resolved text message, short of the gate. -/
def c10acts : List Action :=
  [.arrive (exText "A1" "hi"), .admitMsg 0, .resolve 0 exEnv]

/-- The state reached by `c10acts`. -/
def c10mid : SysState := (runFrom init c10acts).getD init

/-- The task of `c10mid`, ready to enter the gate. -/
def c10task : Task :=
  { info := exText "A1" "hi", quoted_message := none, user_message := "hi"
    is_voice := false, image_path := none, pc := .ready }

end Dispatch

namespace Dispatch

theorem get_decomp {α : Type} (l : List α) (i : Nat) (t : α)
    (h : l.get? i = some t) (t' : α) :
    l = l.take i ++ t :: l.drop (i + 1) ∧
      l.set i t' = l.take i ++ t' :: l.drop (i + 1) := by
  rw [List.get?_eq_getElem?, List.getElem?_eq_some_iff] at h
  obtain ⟨hlen, hget⟩ := h
  constructor
  · conv_lhs => rw [← List.take_append_drop i l]
    rw [List.drop_eq_getElem_cons hlen, hget]
  · rw [List.set_eq_take_cons_drop _ hlen]

theorem countP_set_add {α : Type} (p : α → Bool) (l : List α) (i : Nat) (t : α)
    (h : l.get? i = some t) (t' : α) :
    (l.set i t').countP p + (if p t then 1 else 0) =
      l.countP p + (if p t' then 1 else 0) := by
  obtain ⟨hl, hset⟩ := get_decomp l i t h t'
  rw [hset]
  conv_rhs => rw [hl]
  simp only [List.countP_append, List.countP_cons]
  omega

theorem countP_set_eq {α : Type} (p : α → Bool) (l : List α) (i : Nat) (t t' : α)
    (h : l.get? i = some t) (hp : p t = p t') :
    (l.set i t').countP p = l.countP p := by
  have hadd := countP_set_add p l i t h t'
  rw [hp] at hadd
  omega

theorem filterMap_set_eq {α β : Type} (f : α → Option β) (l : List α) (i : Nat)
    (t t' : α) (h : l.get? i = some t) (hf : f t = f t') :
    (l.set i t').filterMap f = l.filterMap f := by
  obtain ⟨hl, hset⟩ := get_decomp l i t h t'
  rw [hset]
  conv_rhs => rw [hl]
  rw [List.filterMap_append, List.filterMap_append, List.filterMap_cons,
    List.filterMap_cons, hf]

theorem mem_of_set {α : Type} (l : List α) (i : Nat) (t t' x : α)
    (h : l.get? i = some t) (hx : x ∈ l.set i t') : x = t' ∨ x ∈ l := by
  obtain ⟨hl, hset⟩ := get_decomp l i t h t'
  rw [hset] at hx
  rcases List.mem_append.mp hx with h1 | h2
  · right
    rw [hl]
    exact List.mem_append.mpr (Or.inl h1)
  · rcases List.mem_cons.mp h2 with h3 | h4
    · exact Or.inl h3
    · right
      rw [hl]
      exact List.mem_append.mpr (Or.inr (List.mem_cons.mpr (Or.inr h4)))

theorem lookupD_setK_self {α : Type} (m : List (String × α)) (k : String) (v d : α) :
    lookupD (setK m k v) k d = v := by
  induction m with
  | nil => simp [setK, lookupD]
  | cons p rest ih =>
    obtain ⟨k', v'⟩ := p
    by_cases hk : k' = k
    · simp [setK, hk, lookupD]
    · simpa [setK, hk, lookupD] using ih

theorem lookupD_setK_ne {α : Type} (m : List (String × α)) (k k' : String) (v d : α)
    (h : k' ≠ k) :
    lookupD (setK m k v) k' d = lookupD m k' d := by
  induction m with
  | nil => simp [setK, lookupD, h, Ne.symm h]
  | cons p rest ih =>
    obtain ⟨k'', v''⟩ := p
    by_cases hk : k'' = k
    · simp [setK, hk, lookupD, Ne.symm h]
    · by_cases hk2 : k'' = k'
      · simp [setK, hk, hk2, lookupD, h]
      · simpa [setK, hk, hk2, lookupD] using ih

theorem is_processed_storePut_of (store : List (String × ArchivedMsg))
    (mid mid' c n : String) (h : is_processed store mid = true) :
    is_processed (storePut store mid' c n) mid = true := by
  by_cases he : mid' = mid
  · simp [is_processed, storeGet, storePut, he]
  · simpa [is_processed, storeGet, storePut, he] using h

theorem is_processed_storePut_self (store : List (String × ArchivedMsg))
    (mid c n : String) :
    is_processed (storePut store mid c n) mid = true := by
  simp [is_processed, storeGet, storePut]

end Dispatch

namespace Dispatch

theorem inv_stepArrive (s : SysState) (info : MsgInfo) (h : Inv s) :
    Inv (stepArrive s info) := by
  obtain ⟨h1, h2, h3, h4, h5, h6⟩ := h
  refine ⟨?_, ?_, ?_, ?_, ?_, ?_⟩
  · intro u
    simpa [inflight, stepArrive, List.countP_append, inflP, Loc.isInflight] using h1 u
  · intro u hu
    have := h2 u (by simpa [stepArrive, lockD] using hu)
    simpa [inflight, stepArrive, List.countP_append, inflP, Loc.isInflight] using this
  · intro mid
    simpa [activeIds, stepArrive, List.filterMap_append, taskActiveId, Loc.isActive]
      using h3 mid
  · simpa [activeIds, stepArrive, List.filterMap_append, taskActiveId, Loc.isActive]
      using h4
  · exact h5
  · intro t ht hfl mid hmid
    simp only [stepArrive, List.mem_append] at ht
    rcases ht with ht | ht
    · exact h6 t ht hfl mid hmid
    · simp only [List.mem_singleton] at ht
      subst ht
      simp [Loc.isInflight] at hfl

theorem filterMap_set_decomp {α β : Type} (f : α → Option β) (l : List α) (i : Nat)
    (t t' : α) (h : l.get? i = some t) :
    l.filterMap f =
        (l.take i).filterMap f ++ ((f t).toList ++ (l.drop (i + 1)).filterMap f) ∧
      (l.set i t').filterMap f =
        (l.take i).filterMap f ++ ((f t').toList ++ (l.drop (i + 1)).filterMap f) := by
  obtain ⟨hl, hset⟩ := get_decomp l i t h t'
  constructor
  · conv_lhs => rw [hl]
    cases hft : f t <;> simp [List.filterMap_append, List.filterMap_cons, hft]
  · rw [hset]
    cases hft : f t' <;> simp [List.filterMap_append, List.filterMap_cons, hft]

theorem mem_of_get? {α : Type} (l : List α) (i : Nat) (t : α)
    (h : l.get? i = some t) : t ∈ l := by
  obtain ⟨hl, _⟩ := get_decomp l i t h t
  rw [hl]
  exact List.mem_append.mpr (Or.inr (List.mem_cons_self _ _))

theorem countP_pos_of_get? {α : Type} (p : α → Bool) (l : List α) (i : Nat) (t : α)
    (h : l.get? i = some t) (hp : p t = true) : 1 ≤ l.countP p := by
  obtain ⟨hl, _⟩ := get_decomp l i t h t
  rw [hl]
  simp only [List.countP_append, List.countP_cons, hp, if_true]
  omega

theorem inv_core (s s' : SysState) (h : Inv s)
    (ht : s'.tasks = s.tasks) (hl : s'.locks = s.locks)
    (hp : s'.processing = s.processing) (hs : s'.store = s.store) : Inv s' := by
  obtain ⟨h1, h2, h3, h4, h5, h6⟩ := h
  refine ⟨?_, ?_, ?_, ?_, ?_, ?_⟩
  · intro u
    show List.countP (inflP u) s'.tasks ≤ 1
    rw [ht]
    exact h1 u
  · intro u hu
    show List.countP (inflP u) s'.tasks = 0
    rw [ht]
    refine h2 u ?_
    show lookupD s.locks u false = false
    rw [← hl]
    exact hu
  · intro m
    show m ∈ s'.processing ↔ m ∈ List.filterMap taskActiveId s'.tasks
    rw [ht, hp]
    exact h3 m
  · show (List.filterMap taskActiveId s'.tasks).Nodup
    rw [ht]
    exact h4
  · show s'.processing.Nodup
    rw [hp]
    exact h5
  · intro t2 ht2 hfl mid hmid
    show is_processed s'.store mid = true
    rw [hs]
    exact h6 t2 (by rw [← ht]; exact ht2) hfl mid hmid

theorem inv_update_same (s s' : SysState) (i : Nat) (t t' : Task) (h : Inv s)
    (hget : s.tasks.get? i = some t)
    (ht : s'.tasks = s.tasks.set i t')
    (hl : s'.locks = s.locks) (hp : s'.processing = s.processing)
    (hs : s'.store = s.store)
    (huser : t'.info.from_user = t.info.from_user)
    (hmid : t'.info.message_id = t.info.message_id)
    (hinfl : t'.pc.isInflight = t.pc.isInflight)
    (hact : t'.pc.isActive = t.pc.isActive) : Inv s' := by
  obtain ⟨h1, h2, h3, h4, h5, h6⟩ := h
  have hpeq : ∀ u, inflP u t = inflP u t' := by
    intro u
    simp [inflP, huser, hinfl]
  have haeq : taskActiveId t = taskActiveId t' := by
    simp [taskActiveId, hact, hmid]
  have hcnt : ∀ u, List.countP (inflP u) (s.tasks.set i t')
      = List.countP (inflP u) s.tasks := fun u =>
    countP_set_eq _ s.tasks i t t' hget (hpeq u)
  have hfm : List.filterMap taskActiveId (s.tasks.set i t')
      = List.filterMap taskActiveId s.tasks :=
    filterMap_set_eq _ s.tasks i t t' hget haeq
  refine ⟨?_, ?_, ?_, ?_, ?_, ?_⟩
  · intro u
    show List.countP (inflP u) s'.tasks ≤ 1
    rw [ht, hcnt u]
    exact h1 u
  · intro u hu
    show List.countP (inflP u) s'.tasks = 0
    rw [ht, hcnt u]
    refine h2 u ?_
    show lookupD s.locks u false = false
    rw [← hl]
    exact hu
  · intro m
    show m ∈ s'.processing ↔ m ∈ List.filterMap taskActiveId s'.tasks
    rw [ht, hp, hfm]
    exact h3 m
  · show (List.filterMap taskActiveId s'.tasks).Nodup
    rw [ht, hfm]
    exact h4
  · show s'.processing.Nodup
    rw [hp]
    exact h5
  · intro t2 ht2 hfl mid hmid2
    show is_processed s'.store mid = true
    rw [hs]
    rw [ht] at ht2
    rcases mem_of_set s.tasks i t t' t2 hget ht2 with rfl | hmem
    · refine h6 t (mem_of_get? s.tasks i t hget) ?_ mid ?_
      · rw [← hinfl]
        exact hfl
      · rw [← hmid]
        exact hmid2
    · exact h6 t2 hmem hfl mid hmid2

theorem removal_core (s : SysState) (i : Nat) (t t' : Task)
    (hget : s.tasks.get? i = some t)
    (hactt : taskActiveId t = t.info.message_id)
    (hpc' : taskActiveId t' = none)
    (h3 : ∀ mid, mid ∈ s.processing ↔ mid ∈ activeIds s)
    (h4 : (activeIds s).Nodup) (h5 : s.processing.Nodup) :
    (∀ m, m ∈ discardId s.processing t.info.message_id ↔
       m ∈ List.filterMap taskActiveId (s.tasks.set i t')) ∧
    (List.filterMap taskActiveId (s.tasks.set i t')).Nodup ∧
    (discardId s.processing t.info.message_id).Nodup := by
  simp only [activeIds] at h3 h4
  obtain ⟨hA, hA'⟩ := filterMap_set_decomp taskActiveId s.tasks i t t' hget
  rw [hactt] at hA
  rw [hpc'] at hA'
  simp only [Option.toList, List.nil_append] at hA'
  cases hmidq : t.info.message_id with
  | none =>
    rw [hmidq] at hA
    simp only [Option.toList, List.nil_append] at hA
    rw [← hA] at hA'
    refine ⟨?_, ?_, ?_⟩
    · intro m
      show m ∈ s.processing ↔ _
      rw [hA']
      exact h3 m
    · rw [hA']
      exact h4
    · exact h5
  | some mid =>
    rw [hmidq] at hA
    simp only [Option.toList, List.singleton_append] at hA
    have hmidnot : mid ∉ List.filterMap taskActiveId (List.take i s.tasks)
        ++ List.filterMap taskActiveId (List.drop (i + 1) s.tasks) := by
      have := h4
      rw [hA, List.nodup_middle] at this
      exact (List.nodup_cons.mp this).1
    refine ⟨?_, ?_, ?_⟩
    · intro m
      show m ∈ List.filter (fun x => x != mid) s.processing ↔ _
      rw [hA']
      have hmm := h3 m
      rw [hA] at hmm
      simp only [List.mem_filter, List.mem_append, List.mem_cons, bne_iff_ne] at hmm ⊢
      constructor
      · intro ⟨hin, hne⟩
        rcases hmm.mp hin with ha | hb | hc
        · exact Or.inl ha
        · exact absurd hb hne
        · exact Or.inr hc
      · intro hin
        have hne : m ≠ mid := by
          intro heq
          subst heq
          exact hmidnot (List.mem_append.mpr hin)
        exact ⟨hmm.mpr (by tauto), hne⟩
    · rw [hA']
      have := h4
      rw [hA, List.nodup_middle] at this
      exact (List.nodup_cons.mp this).2
    · exact List.Nodup.filter _ h5

theorem isActive_of_isInflight (pc : Loc) (h : pc.isInflight = true) :
    pc.isActive = true := by
  cases pc <;> simp_all [Loc.isInflight, Loc.isActive]

theorem inv_finish_nolock (s s' : SysState) (i : Nat) (t t' : Task) (h : Inv s)
    (hget : s.tasks.get? i = some t)
    (ht : s'.tasks = s.tasks.set i t')
    (hl : s'.locks = s.locks)
    (hp : s'.processing = discardId s.processing t.info.message_id)
    (hs : ∀ mid, is_processed s.store mid = true → is_processed s'.store mid = true)
    (hnotfl : t.pc.isInflight = false)
    (hactt : taskActiveId t = t.info.message_id)
    (hpc' : t'.pc = .done) : Inv s' := by
  obtain ⟨h1, h2, h3, h4, h5, h6⟩ := h
  have hpa' : taskActiveId t' = none := by simp [taskActiveId, hpc', Loc.isActive]
  obtain ⟨hiff, hnod1, hnod2⟩ := removal_core s i t t' hget hactt hpa' h3 h4 h5
  have hcnt : ∀ u, List.countP (inflP u) (s.tasks.set i t')
      = List.countP (inflP u) s.tasks := fun u =>
    countP_set_eq _ s.tasks i t t' hget
      (by simp only [inflP, hnotfl, hpc']; simp [Loc.isInflight])
  refine ⟨?_, ?_, ?_, ?_, ?_, ?_⟩
  · intro u
    show List.countP (inflP u) s'.tasks ≤ 1
    rw [ht, hcnt u]
    exact h1 u
  · intro u hu
    show List.countP (inflP u) s'.tasks = 0
    rw [ht, hcnt u]
    refine h2 u ?_
    show lookupD s.locks u false = false
    rw [← hl]
    exact hu
  · intro m
    show m ∈ s'.processing ↔ m ∈ List.filterMap taskActiveId s'.tasks
    rw [ht, hp]
    exact hiff m
  · show (List.filterMap taskActiveId s'.tasks).Nodup
    rw [ht]
    exact hnod1
  · show s'.processing.Nodup
    rw [hp]
    exact hnod2
  · intro t2 ht2 hfl2 mid hmid2
    rw [ht] at ht2
    rcases mem_of_set s.tasks i t t' t2 hget ht2 with rfl | hmem
    · rw [hpc'] at hfl2
      simp [Loc.isInflight] at hfl2
    · exact hs mid (h6 t2 hmem hfl2 mid hmid2)

theorem inv_finish_release (s s' : SysState) (i : Nat) (t t' : Task) (h : Inv s)
    (hget : s.tasks.get? i = some t)
    (ht : s'.tasks = s.tasks.set i t')
    (hl : s'.locks = setK s.locks t.info.from_user false)
    (hp : s'.processing = discardId s.processing t.info.message_id)
    (hs : ∀ mid, is_processed s.store mid = true → is_processed s'.store mid = true)
    (hfl : t.pc.isInflight = true)
    (hpc' : t'.pc = .done) : Inv s' := by
  obtain ⟨h1, h2, h3, h4, h5, h6⟩ := h
  have hactt : taskActiveId t = t.info.message_id := by
    simp [taskActiveId, isActive_of_isInflight t.pc hfl]
  have hpa' : taskActiveId t' = none := by simp [taskActiveId, hpc', Loc.isActive]
  obtain ⟨hiff, hnod1, hnod2⟩ := removal_core s i t t' hget hactt hpa' h3 h4 h5
  have hadd : ∀ u, List.countP (inflP u) (s.tasks.set i t')
      + (if inflP u t then 1 else 0) = List.countP (inflP u) s.tasks := by
    intro u
    have := countP_set_add (inflP u) s.tasks i t hget t'
    rw [show inflP u t' = false by simp [inflP, hpc', Loc.isInflight]] at this
    simpa using this
  refine ⟨?_, ?_, ?_, ?_, ?_, ?_⟩
  · intro u
    show List.countP (inflP u) s'.tasks ≤ 1
    rw [ht]
    have ha := hadd u
    have hb := h1 u
    simp only [inflight] at hb
    omega
  · intro u hu
    show List.countP (inflP u) s'.tasks = 0
    rw [ht]
    by_cases huser : u = t.info.from_user
    · have hin : inflP u t = true := by rw [huser]; simp [inflP, hfl]
      have hge := countP_pos_of_get? (inflP u) s.tasks i t hget hin
      have hle := h1 u
      simp only [inflight] at hle
      have ha := hadd u
      rw [hin] at ha
      simp only [if_true] at ha
      omega
    · have hlk : lookupD s.locks u false = false := by
        have hx := hu
        simp only [lockD] at hx
        rw [hl] at hx
        rwa [lookupD_setK_ne s.locks t.info.from_user u false false huser] at hx
      have h0 := h2 u hlk
      simp only [inflight] at h0
      have ha := hadd u
      have hbe : (t.info.from_user == u) = false :=
        beq_eq_false_iff_ne.mpr (fun he => huser he.symm)
      have hfalse : inflP u t = false := by simp [inflP, hbe]
      rw [hfalse] at ha
      simpa [h0] using ha
  · intro m
    show m ∈ s'.processing ↔ m ∈ List.filterMap taskActiveId s'.tasks
    rw [ht, hp]
    exact hiff m
  · show (List.filterMap taskActiveId s'.tasks).Nodup
    rw [ht]
    exact hnod1
  · show s'.processing.Nodup
    rw [hp]
    exact hnod2
  · intro t2 ht2 hfl2 mid hmid2
    rw [ht] at ht2
    rcases mem_of_set s.tasks i t t' t2 hget ht2 with rfl | hmem
    · rw [hpc'] at hfl2
      simp [Loc.isInflight] at hfl2
    · exact hs mid (h6 t2 hmem hfl2 mid hmid2)

theorem inv_stepAdmitMsg (s s' : SysState) (i : Nat) (h : Inv s)
    (hstep : stepAdmitMsg s i = some s') : Inv s' := by
  obtain ⟨h1, h2, h3, h4, h5, h6⟩ := h
  unfold stepAdmitMsg at hstep
  cases hget : s.tasks.get? i with
  | none => rw [hget] at hstep; exact Option.noConfusion hstep
  | some t =>
    simp only [hget] at hstep
    by_cases hpc : t.pc = .arrived
    case neg => rw [if_neg hpc] at hstep; cases hstep
    rw [if_pos hpc] at hstep
    cases hmidq : t.info.message_id with
    | some mid =>
      simp only [hmidq] at hstep
      by_cases hdup : (s.processing.contains mid || is_processed s.store mid) = true
      · -- duplicate: rejected, only the task's pc changes to done
        rw [if_pos hdup] at hstep
        cases hstep
        have hcnt : ∀ u, (s.tasks.set i { t with pc := Loc.done }).countP (inflP u)
            = s.tasks.countP (inflP u) := fun u =>
          countP_set_eq _ s.tasks i t _ hget (by simp [inflP, hpc, Loc.isInflight])
        have hfm : (s.tasks.set i { t with pc := Loc.done }).filterMap taskActiveId
            = s.tasks.filterMap taskActiveId :=
          filterMap_set_eq _ s.tasks i t _ hget
            (by simp [taskActiveId, hpc, Loc.isActive])
        refine ⟨?_, ?_, ?_, ?_, ?_, ?_⟩
        · intro u
          show (s.tasks.set i { t with pc := Loc.done }).countP (inflP u) ≤ 1
          rw [hcnt u]
          exact h1 u
        · intro u hu
          show (s.tasks.set i { t with pc := Loc.done }).countP (inflP u) = 0
          rw [hcnt u]
          exact h2 u hu
        · intro m
          show m ∈ s.processing ↔
            m ∈ (s.tasks.set i { t with pc := Loc.done }).filterMap taskActiveId
          rw [hfm]
          exact h3 m
        · show ((s.tasks.set i { t with pc := Loc.done }).filterMap taskActiveId).Nodup
          rw [hfm]
          exact h4
        · exact h5
        · intro t2 ht2 hfl mid2 hmid2
          rcases mem_of_set s.tasks i t _ t2 hget ht2 with rfl | hmem
          · simp [Loc.isInflight] at hfl
          · exact h6 t2 hmem hfl mid2 hmid2
      · -- fresh id: inserted into the in-flight set, task becomes active
        rw [if_neg hdup] at hstep
        simp only [Bool.or_eq_true, not_or, Bool.not_eq_true] at hdup
        obtain ⟨hdup1, hdup2⟩ := hdup
        have hnotmem : mid ∉ s.processing := by
          intro hmem
          rw [show s.processing.contains mid = true by
            simpa [List.contains, List.elem_iff] using hmem] at hdup1
          cases hdup1
        cases hstep
        have hft : taskActiveId t = none := by simp [taskActiveId, hpc, Loc.isActive]
        have hft' : taskActiveId
            { t with quoted_message := resolveQuoted s.store t.info, pc := Loc.resolving }
            = some mid := by
          simp [taskActiveId, Loc.isActive, hmidq]
        obtain ⟨hA, hA'⟩ := filterMap_set_decomp taskActiveId s.tasks i t
          { t with quoted_message := resolveQuoted s.store t.info, pc := Loc.resolving } hget
        rw [hft] at hA
        rw [hft'] at hA'
        simp only [Option.toList] at hA hA'
        have hmidnot : mid ∉ s.tasks.filterMap taskActiveId := fun hmem =>
          hnotmem ((h3 mid).mpr hmem)
        have hcnt : ∀ u, List.countP (inflP u) (s.tasks.set i
            { t with quoted_message := resolveQuoted s.store t.info, pc := Loc.resolving })
              = s.tasks.countP (inflP u) := fun u =>
          countP_set_eq _ s.tasks i t _ hget (by simp [inflP, hpc, Loc.isInflight])
        refine ⟨?_, ?_, ?_, ?_, ?_, ?_⟩
        · intro u
          show List.countP (inflP u) (s.tasks.set i
            { t with quoted_message := resolveQuoted s.store t.info, pc := Loc.resolving }) ≤ 1
          rw [hcnt u]
          exact h1 u
        · intro u hu
          show List.countP (inflP u) (s.tasks.set i
            { t with quoted_message := resolveQuoted s.store t.info, pc := Loc.resolving }) = 0
          rw [hcnt u]
          exact h2 u hu
        · intro m
          show m ∈ mid :: s.processing ↔ m ∈ List.filterMap taskActiveId (s.tasks.set i
            { t with quoted_message := resolveQuoted s.store t.info, pc := Loc.resolving })
          rw [hA']
          have hmm := h3 m
          simp only [activeIds] at hmm
          rw [hA] at hmm
          simp only [List.nil_append, List.singleton_append, List.mem_cons,
            List.mem_append] at hmm ⊢
          tauto
        · show (List.filterMap taskActiveId (s.tasks.set i
            { t with quoted_message := resolveQuoted s.store t.info, pc := Loc.resolving })).Nodup
          rw [hA']
          simp only [activeIds] at h4
          rw [hA] at h4
          rw [hA] at hmidnot
          simp only [List.nil_append] at h4 hmidnot
          simp only [List.singleton_append]
          rw [List.nodup_middle]
          exact List.nodup_cons.mpr ⟨by simpa using hmidnot, h4⟩
        · exact List.Nodup.cons hnotmem h5
        · intro t2 ht2 hfl mid2 hmid2
          rcases mem_of_set s.tasks i t _ t2 hget ht2 with rfl | hmem
          · simp [Loc.isInflight] at hfl
          · exact h6 t2 hmem hfl mid2 hmid2
    | none =>
      simp only [hmidq] at hstep
      cases hstep
      have hcnt : ∀ u, List.countP (inflP u) (s.tasks.set i
          { t with quoted_message := resolveQuoted s.store t.info, pc := Loc.resolving })
            = s.tasks.countP (inflP u) := fun u =>
        countP_set_eq _ s.tasks i t _ hget (by simp [inflP, hpc, Loc.isInflight])
      have hfm : List.filterMap taskActiveId (s.tasks.set i
          { t with quoted_message := resolveQuoted s.store t.info, pc := Loc.resolving })
            = s.tasks.filterMap taskActiveId :=
        filterMap_set_eq _ s.tasks i t _ hget
          (by simp [taskActiveId, hpc, Loc.isActive, hmidq])
      refine ⟨?_, ?_, ?_, ?_, ?_, ?_⟩
      · intro u
        show List.countP (inflP u) (s.tasks.set i
          { t with quoted_message := resolveQuoted s.store t.info, pc := Loc.resolving }) ≤ 1
        rw [hcnt u]
        exact h1 u
      · intro u hu
        show List.countP (inflP u) (s.tasks.set i
          { t with quoted_message := resolveQuoted s.store t.info, pc := Loc.resolving }) = 0
        rw [hcnt u]
        exact h2 u hu
      · intro m
        show m ∈ s.processing ↔ m ∈ List.filterMap taskActiveId (s.tasks.set i
          { t with quoted_message := resolveQuoted s.store t.info, pc := Loc.resolving })
        rw [hfm]
        exact h3 m
      · show (List.filterMap taskActiveId (s.tasks.set i
          { t with quoted_message := resolveQuoted s.store t.info, pc := Loc.resolving })).Nodup
        rw [hfm]
        exact h4
      · exact h5
      · intro t2 ht2 hfl mid2 hmid2
        rcases mem_of_set s.tasks i t _ t2 hget ht2 with rfl | hmem
        · simp [Loc.isInflight] at hfl
        · exact h6 t2 hmem hfl mid2 hmid2

theorem inv_stepResolve (s s' : SysState) (i : Nat) (env : ExtEnv) (h : Inv s)
    (hstep : stepResolve s i env = some s') : Inv s' := by
  unfold stepResolve at hstep
  cases hget : s.tasks.get? i with
  | none => rw [hget] at hstep; exact Option.noConfusion hstep
  | some t =>
    simp only [hget] at hstep
    by_cases hpc : t.pc = .resolving
    case neg => rw [if_neg hpc] at hstep; exact Option.noConfusion hstep
    rw [if_pos hpc] at hstep
    have hnotfl : t.pc.isInflight = false := by rw [hpc]; rfl
    have hactt : taskActiveId t = t.info.message_id := by
      simp [taskActiveId, hpc, Loc.isActive]
    have hinfl : ∀ t' : Task, t'.pc = .ready → t'.pc.isInflight = t.pc.isInflight := by
      intro t' hr
      rw [hr, hpc]
      rfl
    have hacteq : ∀ t' : Task, t'.pc = .ready → t'.pc.isActive = t.pc.isActive := by
      intro t' hr
      rw [hr, hpc]
      rfl
    split at hstep
    · -- reaction
      cases hstep
      exact inv_update_same s _ i t _ h hget rfl rfl rfl rfl rfl rfl
        (hinfl _ rfl) (hacteq _ rfl)
    · split at hstep
      · -- audio
        split at hstep
        · cases hstep
          exact inv_finish_nolock s _ i t _ h hget rfl rfl rfl
            (fun _ hm => hm) hnotfl hactt rfl
        · cases hstep
          exact inv_update_same s _ i t _ h hget rfl rfl rfl rfl rfl rfl
            (hinfl _ rfl) (hacteq _ rfl)
      · split at hstep
        · -- image
          split at hstep
          · cases hstep
            exact inv_finish_nolock s _ i t _ h hget rfl rfl rfl
              (fun _ hm => hm) hnotfl hactt rfl
          · cases hstep
            exact inv_update_same s _ i t _ h hget rfl rfl rfl rfl rfl rfl
              (hinfl _ rfl) (hacteq _ rfl)
        · split at hstep
          · -- text
            cases hstep
            exact inv_update_same s _ i t _ h hget rfl rfl rfl rfl rfl rfl
              (hinfl _ rfl) (hacteq _ rfl)
          · -- unsupported
            cases hstep
            exact inv_finish_nolock s _ i t _ h hget rfl rfl rfl
              (fun _ hm => hm) hnotfl hactt rfl

theorem inv_gate_acquire (s s' : SysState) (i : Nat) (t : Task) (h : Inv s)
    (hget : s.tasks.get? i = some t) (hpc : t.pc = .ready)
    (hlock : lockD s t.info.from_user = false)
    (ht : s'.tasks = s.tasks.set i { t with pc := Loc.invoking })
    (hl : s'.locks = setK s.locks t.info.from_user true)
    (hp : s'.processing = s.processing)
    (hsm : ∀ mid, is_processed s.store mid = true → is_processed s'.store mid = true)
    (hself : ∀ mid, t.info.message_id = some mid → is_processed s'.store mid = true) :
    Inv s' := by
  obtain ⟨h1, h2, h3, h4, h5, h6⟩ := h
  have hadd : ∀ u, List.countP (inflP u) (s.tasks.set i { t with pc := Loc.invoking })
      + (if inflP u t then 1 else 0) = List.countP (inflP u) s.tasks
      + (if inflP u { t with pc := Loc.invoking } then 1 else 0) :=
    fun u => countP_set_add (inflP u) s.tasks i t hget _
  have hfm : List.filterMap taskActiveId (s.tasks.set i { t with pc := Loc.invoking })
      = List.filterMap taskActiveId s.tasks :=
    filterMap_set_eq _ s.tasks i t _ hget
      (by simp [taskActiveId, hpc, Loc.isActive])
  refine ⟨?_, ?_, ?_, ?_, ?_, ?_⟩
  · intro u
    show List.countP (inflP u) s'.tasks ≤ 1
    rw [ht]
    by_cases huser : u = t.info.from_user
    · have h0 := h2 u (by rwa [huser])
      simp only [inflight] at h0
      have ha := hadd u
      rw [show inflP u t = false by rw [huser]; simp [inflP, hpc, Loc.isInflight]] at ha
      rw [show inflP u { t with pc := Loc.invoking } = true by
        rw [huser]; simp [inflP, Loc.isInflight]] at ha
      simp at ha
      omega
    · have ha := hadd u
      have hbe : (t.info.from_user == u) = false :=
        beq_eq_false_iff_ne.mpr (fun he => huser he.symm)
      rw [show inflP u t = false by simp [inflP, hbe]] at ha
      rw [show inflP u { t with pc := Loc.invoking } = false by simp [inflP, hbe]] at ha
      simp at ha
      have hb := h1 u
      simp only [inflight] at hb
      omega
  · intro u hu
    show List.countP (inflP u) s'.tasks = 0
    rw [ht]
    by_cases huser : u = t.info.from_user
    · exfalso
      have hx := hu
      simp only [lockD] at hx
      rw [hl, huser] at hx
      rw [lookupD_setK_self s.locks t.info.from_user true false] at hx
      exact Bool.noConfusion hx
    · have hx := hu
      simp only [lockD] at hx
      rw [hl] at hx
      rw [lookupD_setK_ne s.locks t.info.from_user u true false huser] at hx
      have h0 := h2 u hx
      simp only [inflight] at h0
      have ha := hadd u
      have hbe : (t.info.from_user == u) = false :=
        beq_eq_false_iff_ne.mpr (fun he => huser he.symm)
      rw [show inflP u t = false by simp [inflP, hbe]] at ha
      rw [show inflP u { t with pc := Loc.invoking } = false by simp [inflP, hbe]] at ha
      simp at ha
      omega
  · intro m
    show m ∈ s'.processing ↔ m ∈ List.filterMap taskActiveId s'.tasks
    rw [ht, hp, hfm]
    exact h3 m
  · show (List.filterMap taskActiveId s'.tasks).Nodup
    rw [ht, hfm]
    exact h4
  · show s'.processing.Nodup
    rw [hp]
    exact h5
  · intro t2 ht2 hfl2 mid hmid2
    rw [ht] at ht2
    rcases mem_of_set s.tasks i t _ t2 hget ht2 with rfl | hmem
    · exact hself mid hmid2
    · exact hsm mid (h6 t2 hmem hfl2 mid hmid2)

theorem inv_stepGateEnter (s s' : SysState) (i : Nat) (ts : String) (h : Inv s)
    (hstep : stepGateEnter s i ts = some s') : Inv s' := by
  unfold stepGateEnter at hstep
  cases hget : s.tasks.get? i with
  | none => rw [hget] at hstep; exact Option.noConfusion hstep
  | some t =>
    simp only [hget] at hstep
    by_cases hpc : t.pc = .ready
    case neg => rw [if_neg hpc] at hstep; exact Option.noConfusion hstep
    rw [if_pos hpc] at hstep
    have hnotfl : t.pc.isInflight = false := by rw [hpc]; rfl
    have hactt : taskActiveId t = t.info.message_id := by
      simp [taskActiveId, hpc, Loc.isActive]
    cases hmidc : t.info.message_id with
    | some mid0 =>
      simp only [hmidc] at hstep
      split at hstep
      · cases hstep
        exact inv_finish_nolock s _ i t _ h hget rfl rfl (by rw [hmidc])
          (fun mid2 hm => is_processed_storePut_of s.store mid2 mid0 _ _ hm)
          hnotfl hactt rfl
      · rename_i hlock
        cases hstep
        refine inv_gate_acquire s _ i t h hget hpc (by simpa using hlock)
          rfl rfl rfl
          (fun mid2 hm => is_processed_storePut_of s.store mid2 mid0 _ _ hm) ?_
        intro mid hm
        have : mid = mid0 := by
          rw [hmidc] at hm
          exact (Option.some.inj hm).symm
        subst this
        exact is_processed_storePut_self s.store mid _ _
    | none =>
      simp only [hmidc] at hstep
      split at hstep
      · cases hstep
        exact inv_finish_nolock s _ i t _ h hget rfl rfl (by rw [hmidc])
          (fun _ hm => hm) hnotfl hactt rfl
      · rename_i hlock
        cases hstep
        refine inv_gate_acquire s _ i t h hget hpc (by simpa using hlock)
          rfl rfl rfl (fun _ hm => hm) ?_
        intro mid hm
        rw [hmidc] at hm
        exact Option.noConfusion hm

theorem inv_stepAfterRun (s s' : SysState) (i : Nat) (t : Task) (needs : Bool)
    (h : Inv s) (hget : s.tasks.get? i = some t) (hfl : t.pc.isInflight = true)
    (hstep : stepAfterRun s i t needs = s') : Inv s' := by
  unfold stepAfterRun at hstep
  split at hstep
  · unfold stepComplete at hstep
    split at hstep
    · subst hstep
      exact inv_core s _ h rfl rfl rfl rfl
    · subst hstep
      exact inv_finish_release s _ i t _ h hget rfl rfl rfl (fun _ hm => hm) hfl rfl
  · subst hstep
    exact inv_update_same s _ i t _ h hget rfl rfl rfl rfl rfl rfl
      (by rw [hfl]; rfl)
      (by rw [isActive_of_isInflight t.pc hfl]; rfl)

theorem inv_stepInvokeOk (s s' : SysState) (i : Nat) (r : RunResult) (h : Inv s)
    (hstep : stepInvokeOk s i r = some s') : Inv s' := by
  unfold stepInvokeOk at hstep
  cases hget : s.tasks.get? i with
  | none => rw [hget] at hstep; exact Option.noConfusion hstep
  | some t =>
    simp only [hget] at hstep
    by_cases hpc : t.pc = .invoking
    case neg => rw [if_neg hpc] at hstep; exact Option.noConfusion hstep
    rw [if_pos hpc] at hstep
    cases hstep
    exact inv_stepAfterRun s _ i t r.code_changes h hget (by rw [hpc]; rfl) rfl

theorem inv_stepInvokeFail (s s' : SysState) (i : Nat) (h : Inv s)
    (hstep : stepInvokeFail s i = some s') : Inv s' := by
  unfold stepInvokeFail at hstep
  cases hget : s.tasks.get? i with
  | none => rw [hget] at hstep; exact Option.noConfusion hstep
  | some t =>
    simp only [hget] at hstep
    by_cases hpc : t.pc = .invoking
    case neg => rw [if_neg hpc] at hstep; exact Option.noConfusion hstep
    rw [if_pos hpc] at hstep
    cases hstep
    exact inv_finish_release s _ i t _ h hget rfl rfl rfl (fun _ hm => hm)
      (by rw [hpc]; rfl) rfl

theorem inv_stepDrainOk (s s' : SysState) (i : Nat) (r : RunResult) (h : Inv s)
    (hstep : stepDrainOk s i r = some s') : Inv s' := by
  unfold stepDrainOk at hstep
  cases hget : s.tasks.get? i with
  | none => rw [hget] at hstep; exact Option.noConfusion hstep
  | some t =>
    simp only [hget] at hstep
    split at hstep
    case _ q needs hpcc =>
      cases hstep
      have hinv1 : Inv { s with
          deleted := s.deleted ++ q.filterMap (fun m => m.image_path) } :=
        inv_core s _ h rfl rfl rfl rfl
      exact inv_stepAfterRun _ _ i t _ hinv1 hget (by rw [hpcc]; rfl) rfl
    case _ => exact Option.noConfusion hstep

theorem inv_stepDrainFail (s s' : SysState) (i : Nat) (h : Inv s)
    (hstep : stepDrainFail s i = some s') : Inv s' := by
  unfold stepDrainFail at hstep
  cases hget : s.tasks.get? i with
  | none => rw [hget] at hstep; exact Option.noConfusion hstep
  | some t =>
    simp only [hget] at hstep
    split at hstep
    case _ q needs hpcc =>
      cases hstep
      exact inv_finish_release s _ i t _ h hget rfl rfl rfl (fun _ hm => hm)
        (by rw [hpcc]; rfl) rfl
    case _ => exact Option.noConfusion hstep

theorem inv_step (s s' : SysState) (a : Action) (h : Inv s)
    (hstep : step s a = some s') : Inv s' := by
  unfold step at hstep
  split at hstep
  · exact Option.noConfusion hstep
  · cases a with
    | arrive info => exact (Option.some.inj hstep) ▸ inv_stepArrive s info h
    | admitMsg i => exact inv_stepAdmitMsg s s' i h hstep
    | resolve i env => exact inv_stepResolve s s' i env h hstep
    | gateEnter i ts => exact inv_stepGateEnter s s' i ts h hstep
    | invokeOk i r => exact inv_stepInvokeOk s s' i r h hstep
    | invokeFail i => exact inv_stepInvokeFail s s' i h hstep
    | drainOk i r => exact inv_stepDrainOk s s' i r h hstep
    | drainFail i => exact inv_stepDrainFail s s' i h hstep

theorem inv_init : Inv init := by
  refine ⟨fun u => ?_, fun u _ => ?_, fun mid => ?_, ?_, ?_, fun t ht => ?_⟩
  · simp [init, inflight]
  · simp [init, inflight]
  · simp [init, activeIds]
  · simp [init, activeIds]
  · simp [init]
  · simp [init] at ht

theorem inv_runFrom (acts : List Action) (s s' : SysState) (h : Inv s)
    (hrun : runFrom s acts = some s') : Inv s' := by
  induction acts generalizing s with
  | nil =>
    unfold runFrom at hrun
    cases hrun
    exact h
  | cons a rest ih =>
    unfold runFrom at hrun
    cases hstep : step s a with
    | none => rw [hstep] at hrun; exact Option.noConfusion hrun
    | some s1 =>
      simp only [hstep] at hrun
      exact ih s1 (inv_step s s1 a h hstep) hrun

theorem reachable_inv (s : SysState) (h : Reachable s) : Inv s := by
  obtain ⟨acts, hrun⟩ := h
  exact inv_runFrom acts init s inv_init hrun

end Dispatch

namespace Dispatch

theorem foldl_append_singleton {α β : Type} (f : α → β) :
    ∀ (q : List α) (acc : List β),
      q.foldl (fun parts m => parts ++ [f m]) acc = acc ++ q.map f
  | [], acc => by simp
  | m :: q, acc => by
    simp only [List.foldl_cons, List.map_cons]
    rw [foldl_append_singleton f q (acc ++ [f m])]
    simp

end Dispatch

section ClaimTheorems

open Dispatch

/-- C2: when an invocation completes with a non-empty pending queue, the
entire queue is drained into exactly one coalesced follow-up `claude.run`
call whose text lists the queued entries in arrival order, each prefixed by
its enqueue timestamp under the busy header; the drain check repeats after
every completed invocation, and a completed invocation releases the gate
only when the queue is empty. -/
theorem C2_drain_coalescing :
    (∀ q : List QueuedMsg,
      combined_prompt q =
        String.intercalate "\n"
          ("[Messages received while you were working]\n" ::
            q.map (fun m => "(" ++ m.timestamp ++ ") " ++ m.message))) ∧
    (∀ s s' i r t, s.tasks.get? i = some t → t.pc = .invoking →
      step s (.invokeOk i r) = some s' →
      (pendingD s t.info.from_user ≠ [] →
        s'.calls = s.calls ++
          [drainCall t.info.from_user t.info.name (pendingD s t.info.from_user)] ∧
        pendingD s' t.info.from_user = [] ∧ s'.locks = s.locks) ∧
      (lockD s t.info.from_user = true → lockD s' t.info.from_user = false →
        pendingD s t.info.from_user = [])) ∧
    (∀ s s' i r t q0 needs, s.tasks.get? i = some t → t.pc = .draining q0 needs →
      step s (.drainOk i r) = some s' →
      (pendingD s t.info.from_user ≠ [] →
        s'.calls = s.calls ++
          [drainCall t.info.from_user t.info.name (pendingD s t.info.from_user)] ∧
        pendingD s' t.info.from_user = [] ∧ s'.locks = s.locks) ∧
      (lockD s t.info.from_user = true → lockD s' t.info.from_user = false →
        pendingD s t.info.from_user = [])) := by
  refine ⟨?_, ?_, ?_⟩
  · intro q
    unfold combined_prompt
    rw [foldl_append_singleton (fun m : QueuedMsg => "(" ++ m.timestamp ++ ") " ++ m.message) q]
    rfl
  · intro s s' i r t hget hpc hstep
    unfold step at hstep
    split at hstep
    · exact Option.noConfusion hstep
    unfold stepInvokeOk at hstep
    simp only [hget] at hstep
    rw [if_pos hpc] at hstep
    unfold stepAfterRun at hstep
    split at hstep
    case isTrue hq =>
      have hqe : pendingD s t.info.from_user = [] := List.isEmpty_iff.mp hq
      unfold stepComplete at hstep
      split at hstep
      · cases hstep
        exact ⟨fun hne => absurd hqe hne, fun _ _ => hqe⟩
      · cases hstep
        exact ⟨fun hne => absurd hqe hne, fun _ _ => hqe⟩
    case isFalse hq =>
      cases hstep
      refine ⟨fun _ => ⟨rfl, ?_, rfl⟩, fun hl1 hl2 => ?_⟩
      · show lookupD (setK s.pending t.info.from_user []) t.info.from_user [] = []
        exact lookupD_setK_self s.pending t.info.from_user [] []
      · have hl2' : lockD s t.info.from_user = false := hl2
        rw [hl1] at hl2'
        exact Bool.noConfusion hl2'
  · intro s s' i r t q0 needs hget hpc hstep
    unfold step at hstep
    split at hstep
    · exact Option.noConfusion hstep
    unfold stepDrainOk at hstep
    simp only [hget] at hstep
    split at hstep
    case _ q1 needs1 hpcc =>
      unfold stepAfterRun at hstep
      split at hstep
      case isTrue hq =>
        have hqe : pendingD s t.info.from_user = [] := List.isEmpty_iff.mp hq
        unfold stepComplete at hstep
        split at hstep
        · cases hstep
          exact ⟨fun hne => absurd hqe hne, fun _ _ => hqe⟩
        · cases hstep
          exact ⟨fun hne => absurd hqe hne, fun _ _ => hqe⟩
      case isFalse hq =>
        cases hstep
        refine ⟨fun _ => ⟨rfl, ?_, rfl⟩, fun hl1 hl2 => ?_⟩
        · show lookupD (setK s.pending t.info.from_user []) t.info.from_user [] = []
          exact lookupD_setK_self s.pending t.info.from_user [] []
        · have hl2' : lockD s t.info.from_user = false := hl2
          rw [hl1] at hl2'
          exact Bool.noConfusion hl2'
    case _ => exact Option.noConfusion hstep

/-- C2 witness: a concrete busy state with one queued message drains it into
one coalesced call with the documented format. -/
theorem C2_drain_coalescing_witness :
    combined_prompt [⟨"again", false, none, none, "10:01"⟩] =
      "[Messages received while you were working]\n\n(10:01) again" ∧
    (∃ s', step exInvoking (Action.invokeOk 0 ⟨false, false⟩) = some s' ∧
      s'.calls = exInvoking.calls ++
        [drainCall "u1" (some "Alice") [⟨"again", false, none, none, "10:01"⟩]] ∧
      pendingD s' "u1" = []) := by
  constructor
  · rw [C2_drain_coalescing.1 [⟨"again", false, none, none, "10:01"⟩]]
    rfl
  · cases hs : step exInvoking (Action.invokeOk 0 ⟨false, false⟩) with
    | none => exact absurd hs (by decide)
    | some s' =>
      have h := (C2_drain_coalescing.2.1 exInvoking s' 0 ⟨false, false⟩ _ rfl rfl hs).1
        (by decide)
      exact ⟨s', rfl, h.1, h.2.1⟩

/-- C3 counterexample: after the gate holder's invocation fails, the gate
cycle is over (lock free, both tasks terminated) yet the queued message was
never passed to any invocation — it still sits in the pending queue, and the
only call made was the holder's original one.  This refutes the claim that
queued entries are "drained and attempted on the next invocation before the
gate cycle ends". -/
theorem C3_failure_drain_counterexample :
    (runFrom init c3acts).map
      (fun s => (lockD s "u1", pendingD s "u1", s.calls.map (fun c => c.message),
                 s.tasks.map (fun t => t.pc))) =
      some (false, [⟨"again", false, none, none, "10:01"⟩], ["hi"],
            [Loc.done, Loc.done]) := by decide

/-- C3 (amended): if the gate holder's invocation fails, the drain loop is
not reached in that gate cycle: the pending queue is left untouched, no
further call is made, and the gate is released; the queued entries are
attempted only when a later invocation for that user completes, whose drain
step then takes the entire queue (including the leftover entries) into one
coalesced call. -/
theorem C3_failure_keeps_queue :
    (∀ s s' i t, s.tasks.get? i = some t →
      step s (.invokeFail i) = some s' →
      s'.pending = s.pending ∧ s'.calls = s.calls ∧
      lockD s' t.info.from_user = false) ∧
    (∀ s s' i r t, s.tasks.get? i = some t → t.pc = .invoking →
      step s (.invokeOk i r) = some s' →
      pendingD s t.info.from_user ≠ [] →
      s'.calls = s.calls ++
        [drainCall t.info.from_user t.info.name (pendingD s t.info.from_user)]) := by
  constructor
  · intro s s' i t hget hstep
    unfold step at hstep
    split at hstep
    · exact Option.noConfusion hstep
    unfold stepInvokeFail at hstep
    simp only [hget] at hstep
    split at hstep
    · cases hstep
      refine ⟨rfl, rfl, ?_⟩
      show lookupD (setK s.locks t.info.from_user false) t.info.from_user false = false
      exact lookupD_setK_self s.locks t.info.from_user false false
    · exact Option.noConfusion hstep
  · intro s s' i r t hget hpc hstep hne
    unfold step at hstep
    split at hstep
    · exact Option.noConfusion hstep
    unfold stepInvokeOk at hstep
    simp only [hget] at hstep
    rw [if_pos hpc] at hstep
    unfold stepAfterRun at hstep
    split at hstep
    case isTrue hq => exact absurd (List.isEmpty_iff.mp hq) hne
    case isFalse hq =>
      cases hstep
      rfl

/-- C3 witness: the amended statement at a concrete busy state. -/
theorem C3_failure_keeps_queue_witness :
    (∃ s', step exInvoking (Action.invokeFail 0) = some s' ∧
      s'.pending = exInvoking.pending ∧ s'.calls = exInvoking.calls ∧
      lockD s' "u1" = false) ∧
    (∃ s', step exInvoking (Action.invokeOk 0 ⟨false, false⟩) = some s' ∧
      s'.calls = exInvoking.calls ++
        [drainCall "u1" (some "Alice") [⟨"again", false, none, none, "10:01"⟩]]) := by
  constructor
  · cases hs : step exInvoking (Action.invokeFail 0) with
    | none => exact absurd hs (by decide)
    | some s' =>
      have h := C3_failure_keeps_queue.1 exInvoking s' 0 _ rfl hs
      exact ⟨s', rfl, h.1, h.2.1, h.2.2⟩
  · cases hs : step exInvoking (Action.invokeOk 0 ⟨false, false⟩) with
    | none => exact absurd hs (by decide)
    | some s' =>
      exact ⟨s', rfl,
        C3_failure_keeps_queue.2 exInvoking s' 0 ⟨false, false⟩ _ rfl rfl hs (by decide)⟩

/-- C1: in every reachable state, at most one agent invocation is in flight
per user, system-wide; and a message reaching the gate while that user's
lock is held is appended to the pending queue without starting an
invocation.  The gate check followed by acquire-or-enqueue is a single
atomic step of the model, mirroring that lines 200-228 of `process_message`
contain no `await` between the `locked()` check and the lock acquisition /
enqueue. -/
theorem C1_single_flight :
    (∀ s, Reachable s → ∀ u, inflight s u ≤ 1) ∧
    (∀ s s' i ts t, s.tasks.get? i = some t →
      step s (.gateEnter i ts) = some s' →
      lockD s t.info.from_user = true →
      s'.calls = s.calls ∧
      pendingD s' t.info.from_user = pendingD s t.info.from_user ++
        [⟨t.user_message, t.is_voice, t.image_path, t.quoted_message, ts⟩]) := by
  constructor
  · intro s hr u
    exact (reachable_inv s hr).1 u
  · intro s s' i ts t hget hstep hlock
    unfold step at hstep
    split at hstep
    · exact Option.noConfusion hstep
    unfold stepGateEnter at hstep
    simp only [hget] at hstep
    by_cases hpc : t.pc = Loc.ready
    case neg => rw [if_neg hpc] at hstep; exact Option.noConfusion hstep
    rw [if_pos hpc, if_pos hlock] at hstep
    cases hmidq : t.info.message_id with
    | some mid0 =>
      simp only [hmidq] at hstep
      cases hstep
      exact ⟨rfl, lookupD_setK_self s.pending t.info.from_user _ []⟩
    | none =>
      simp only [hmidq] at hstep
      cases hstep
      exact ⟨rfl, lookupD_setK_self s.pending t.info.from_user _ []⟩

/-- C1 witness: the invariant at the initial state, and the enqueue
behaviour at a concrete busy state. -/
theorem C1_single_flight_witness :
    inflight init "u1" ≤ 1 ∧
    (∃ s', step exBusy (Action.gateEnter 0 "10:01") = some s' ∧
      s'.calls = exBusy.calls ∧
      pendingD s' "u1" = pendingD exBusy "u1" ++
        [⟨"again", false, none, none, "10:01"⟩]) := by
  refine ⟨C1_single_flight.1 init ⟨[], rfl⟩ "u1", ?_⟩
  cases hs : step exBusy (Action.gateEnter 0 "10:01") with
  | none => exact absurd hs (by decide)
  | some s' =>
    have h := C1_single_flight.2 exBusy s' 0 "10:01" _ rfl hs (by decide)
    exact ⟨s', rfl, h.1, h.2⟩

/-- C4: in every reachable state the in-flight admission set holds exactly
the ids of the messages currently between admission and terminal handling;
hence an id is removed from the set on every exit path of its task —
success, handled error, early return, and handled exception — and never
remains a member after its dispatch iteration terminates. -/
theorem C4_inflight_set_exact (s : SysState) (hr : Reachable s) :
    ∀ mid, mid ∈ s.processing ↔ mid ∈ activeIds s :=
  (reachable_inv s hr).2.2.1

/-- C4 witness: the correspondence at a concrete reachable state with one
admitted message. -/
theorem C4_inflight_set_exact_witness :
    "A1" ∈ c10mid.processing ↔ "A1" ∈ activeIds c10mid :=
  C4_inflight_set_exact c10mid ⟨c10acts, by decide⟩ "A1"

theorem frame_stepAfterRun (s s' : SysState) (i : Nat) (t : Task) (needs : Bool)
    (h : stepAfterRun s i t needs = s') :
    s'.store = s.store ∧
    (s'.exited = s.exited ∨
      (s'.exited = some 0 ∧ s'.calls = s.calls ∧
        pendingD s t.info.from_user = [] ∧ s'.locks = s.locks)) := by
  unfold stepAfterRun at h
  split at h
  case isTrue hq =>
    unfold stepComplete at h
    split at h
    · subst h
      exact ⟨rfl, Or.inr ⟨rfl, rfl, List.isEmpty_iff.mp hq, rfl⟩⟩
    · subst h
      exact ⟨rfl, Or.inl rfl⟩
  case isFalse hq =>
    subst h
    exact ⟨rfl, Or.inl rfl⟩

theorem frame_nonexit (s s' : SysState) (a : Action) (hstep : step s a = some s')
    (hna : ∀ i r, a ≠ .invokeOk i r) (hnd : ∀ i r, a ≠ .drainOk i r) :
    s'.exited = s.exited ∧
    (∀ mid, is_processed s.store mid = true → is_processed s'.store mid = true) := by
  unfold step at hstep
  split at hstep
  · exact Option.noConfusion hstep
  cases a with
  | arrive info =>
    replace hstep : some (stepArrive s info) = some s' := hstep
    cases hstep
    exact ⟨rfl, fun _ hm => hm⟩
  | admitMsg i =>
    replace hstep : stepAdmitMsg s i = some s' := hstep
    unfold stepAdmitMsg at hstep
    cases hget : s.tasks.get? i with
    | none => rw [hget] at hstep; exact Option.noConfusion hstep
    | some t =>
      simp only [hget] at hstep
      by_cases hpc : t.pc = Loc.arrived
      case neg => rw [if_neg hpc] at hstep; exact Option.noConfusion hstep
      rw [if_pos hpc] at hstep
      cases hmid : t.info.message_id with
      | some m0 =>
        simp only [hmid] at hstep
        split at hstep
        · cases hstep; exact ⟨rfl, fun _ hm => hm⟩
        · cases hstep; exact ⟨rfl, fun _ hm => hm⟩
      | none =>
        simp only [hmid] at hstep
        cases hstep
        exact ⟨rfl, fun _ hm => hm⟩
  | resolve i env =>
    replace hstep : stepResolve s i env = some s' := hstep
    unfold stepResolve at hstep
    cases hget : s.tasks.get? i with
    | none => rw [hget] at hstep; exact Option.noConfusion hstep
    | some t =>
      simp only [hget] at hstep
      by_cases hpc : t.pc = Loc.resolving
      case neg => rw [if_neg hpc] at hstep; exact Option.noConfusion hstep
      rw [if_pos hpc] at hstep
      split at hstep
      · cases hstep; exact ⟨rfl, fun _ hm => hm⟩
      · split at hstep
        · split at hstep
          · cases hstep; exact ⟨rfl, fun _ hm => hm⟩
          · cases hstep; exact ⟨rfl, fun _ hm => hm⟩
        · split at hstep
          · split at hstep
            · cases hstep; exact ⟨rfl, fun _ hm => hm⟩
            · cases hstep; exact ⟨rfl, fun _ hm => hm⟩
          · split at hstep
            · cases hstep; exact ⟨rfl, fun _ hm => hm⟩
            · cases hstep; exact ⟨rfl, fun _ hm => hm⟩
  | gateEnter i ts =>
    replace hstep : stepGateEnter s i ts = some s' := hstep
    unfold stepGateEnter at hstep
    cases hget : s.tasks.get? i with
    | none => rw [hget] at hstep; exact Option.noConfusion hstep
    | some t =>
      simp only [hget] at hstep
      by_cases hpc : t.pc = Loc.ready
      case neg => rw [if_neg hpc] at hstep; exact Option.noConfusion hstep
      rw [if_pos hpc] at hstep
      cases hmid : t.info.message_id with
      | some m0 =>
        simp only [hmid] at hstep
        split at hstep
        · cases hstep
          exact ⟨rfl, fun mid hm => is_processed_storePut_of s.store mid m0 _ _ hm⟩
        · cases hstep
          exact ⟨rfl, fun mid hm => is_processed_storePut_of s.store mid m0 _ _ hm⟩
      | none =>
        simp only [hmid] at hstep
        split at hstep
        · cases hstep; exact ⟨rfl, fun _ hm => hm⟩
        · cases hstep; exact ⟨rfl, fun _ hm => hm⟩
  | invokeOk i r => exact absurd rfl (hna i r)
  | invokeFail i =>
    replace hstep : stepInvokeFail s i = some s' := hstep
    unfold stepInvokeFail at hstep
    cases hget : s.tasks.get? i with
    | none => rw [hget] at hstep; exact Option.noConfusion hstep
    | some t =>
      simp only [hget] at hstep
      split at hstep
      · cases hstep; exact ⟨rfl, fun _ hm => hm⟩
      · exact Option.noConfusion hstep
  | drainOk i r => exact absurd rfl (hnd i r)
  | drainFail i =>
    replace hstep : stepDrainFail s i = some s' := hstep
    unfold stepDrainFail at hstep
    cases hget : s.tasks.get? i with
    | none => rw [hget] at hstep; exact Option.noConfusion hstep
    | some t =>
      simp only [hget] at hstep
      split at hstep
      case _ q needs hpcc => cases hstep; exact ⟨rfl, fun _ hm => hm⟩
      case _ => exact Option.noConfusion hstep

/-- C7 counterexample: the process self-terminates (exit code 0) while the
user's gate is still held — `os._exit(0)` at line 261 runs inside the
`async with lock` block, so the exit happens before any release of the
gate, refuting the claim's "after the gate has been released". -/
theorem C7_exit_gate_still_held_counterexample :
    (runFrom init c7acts).map
      (fun s => (s.exited, lockD s "u1", pendingD s "u1")) =
      some (some 0, true, []) := by decide

/-- C7 (amended): the process self-terminates only through a completed
invocation (initial or drained) whose drain check found the user's queue
empty and whose accumulated `code_changes` flag is set; the exit code is 0,
no further call is made, and the gate is *still held* at the moment of exit
(`os._exit` skips the lock release and the `finally` block). -/
theorem C7_exit_conditions (s s' : SysState) (a : Action) (hr : Reachable s)
    (hstep : step s a = some s') (hdiff : s'.exited ≠ s.exited) :
    s'.exited = some 0 ∧ s'.calls = s.calls ∧
    ∃ i t, s.tasks.get? i = some t ∧ pendingD s t.info.from_user = [] ∧
      s'.locks = s.locks ∧ lockD s' t.info.from_user = true := by
  cases a with
  | invokeOk i r =>
    have hstep' := hstep
    unfold step at hstep'
    split at hstep'
    · exact Option.noConfusion hstep'
    replace hstep' : stepInvokeOk s i r = some s' := hstep'
    unfold stepInvokeOk at hstep'
    cases hget : s.tasks.get? i with
    | none => rw [hget] at hstep'; exact Option.noConfusion hstep'
    | some t =>
      simp only [hget] at hstep'
      by_cases hpc : t.pc = Loc.invoking
      case neg => rw [if_neg hpc] at hstep'; exact Option.noConfusion hstep'
      rw [if_pos hpc] at hstep'
      have hfr := frame_stepAfterRun s s' i t r.code_changes (Option.some.inj hstep')
      rcases hfr.2 with he | ⟨he0, hc, hpq, hlk⟩
      · exact absurd he hdiff
      · refine ⟨he0, hc, i, t, hget, hpq, hlk, ?_⟩
        have hinv := reachable_inv s hr
        have hpos := countP_pos_of_get? (inflP t.info.from_user) s.tasks i t hget
          (by simp [inflP, hpc, Loc.isInflight])
        cases hl : lockD s t.info.from_user with
        | false =>
          have h0 := hinv.2.1 t.info.from_user hl
          simp only [inflight] at h0
          omega
        | true =>
          show lookupD s'.locks t.info.from_user false = true
          rw [hlk]
          exact hl
  | drainOk i r =>
    have hstep' := hstep
    unfold step at hstep'
    split at hstep'
    · exact Option.noConfusion hstep'
    replace hstep' : stepDrainOk s i r = some s' := hstep'
    unfold stepDrainOk at hstep'
    cases hget : s.tasks.get? i with
    | none => rw [hget] at hstep'; exact Option.noConfusion hstep'
    | some t =>
      simp only [hget] at hstep'
      split at hstep'
      case _ q needs hpcc =>
        have hfr := frame_stepAfterRun _ s' i t (needs || r.code_changes)
          (Option.some.inj hstep')
        rcases hfr.2 with he | ⟨he0, hc, hpq, hlk⟩
        · exact absurd he hdiff
        · refine ⟨he0, hc, i, t, hget, hpq, hlk, ?_⟩
          have hinv := reachable_inv s hr
          have hpos := countP_pos_of_get? (inflP t.info.from_user) s.tasks i t hget
            (by simp [inflP, hpcc, Loc.isInflight])
          cases hl : lockD s t.info.from_user with
          | false =>
            have h0 := hinv.2.1 t.info.from_user hl
            simp only [inflight] at h0
            omega
          | true =>
            show lookupD s'.locks t.info.from_user false = true
            rw [hlk]
            exact hl
      case _ => exact Option.noConfusion hstep'
  | arrive info =>
    exact absurd (frame_nonexit s s' _ hstep (by intro _ _ hx; cases hx)
      (by intro _ _ hx; cases hx)).1 hdiff
  | admitMsg i =>
    exact absurd (frame_nonexit s s' _ hstep (by intro _ _ hx; cases hx)
      (by intro _ _ hx; cases hx)).1 hdiff
  | resolve i env =>
    exact absurd (frame_nonexit s s' _ hstep (by intro _ _ hx; cases hx)
      (by intro _ _ hx; cases hx)).1 hdiff
  | gateEnter i ts =>
    exact absurd (frame_nonexit s s' _ hstep (by intro _ _ hx; cases hx)
      (by intro _ _ hx; cases hx)).1 hdiff
  | invokeFail i =>
    exact absurd (frame_nonexit s s' _ hstep (by intro _ _ hx; cases hx)
      (by intro _ _ hx; cases hx)).1 hdiff
  | drainFail i =>
    exact absurd (frame_nonexit s s' _ hstep (by intro _ _ hx; cases hx)
      (by intro _ _ hx; cases hx)).1 hdiff

/-- C7 witness: the amended statement at the concrete restart trace. -/
theorem C7_exit_conditions_witness :
    step c7pre (Action.invokeOk 0 ⟨false, true⟩) = some c7post ∧
    c7post.exited = some 0 ∧ c7post.calls = c7pre.calls ∧
    lockD c7post "u1" = true := by
  have h := C7_exit_conditions c7pre c7post (Action.invokeOk 0 ⟨false, true⟩)
    ⟨c7preacts, by decide⟩ (by decide) (by decide)
  exact ⟨by decide, h.1, h.2.1, by decide⟩

/-- C9 at the failing input: a text message holds the gate, an image message
is queued meanwhile (its temp file kept alive by the enqueuer, line 215);
when the queue is drained, the coalesced `claude.run` call carries
`image_path = none` — the queued image is never passed to the agent — and
the drain step then deletes the image file (lines 250-253), contradicting
the comment "it'll be used when the queue is processed" (line 214). -/
theorem C9_queued_image_dropped :
    (runFrom init c9acts).map (fun s => pendingD s "u1") =
      some [⟨"look", false, some "/tmp/x.png", none, "10:02"⟩] ∧
    (runFrom init c9actsFull).map
      (fun s => (s.calls.map (fun c => (c.message, c.image_path)), s.deleted)) =
      some ([("hi", none),
             ("[Messages received while you were working]\n\n(10:02) look", none)],
            ["/tmp/x.png"]) := by
  exact ⟨by decide, by decide⟩

/-- C10: in every reachable state, (1) every task whose agent invocation is
in flight and that carries a message id has its message already archived;
(2) the gate-entry step (which either starts the invocation or queues the
entry) leaves the id archived — the store happens inside that same atomic
step, before the lock check; (3) a redelivery of an already-archived id is
rejected at admission, changing nothing but marking the duplicate task
finished, even if the original delivery's invocation later fails; (4) no
step ever removes an id from the archive. -/
theorem C10_archive_before_invoke (s : SysState) (hr : Reachable s) :
    (∀ t ∈ s.tasks, t.pc.isInflight = true →
      ∀ mid, t.info.message_id = some mid → is_processed s.store mid = true) ∧
    (∀ i t ts s', s.tasks.get? i = some t →
      step s (.gateEnter i ts) = some s' →
      ∀ mid, t.info.message_id = some mid → is_processed s'.store mid = true) ∧
    (∀ i t s', s.tasks.get? i = some t → t.pc = .arrived →
      (∃ mid, t.info.message_id = some mid ∧ is_processed s.store mid = true) →
      step s (.admitMsg i) = some s' →
      s'.processing = s.processing ∧ s'.store = s.store ∧ s'.calls = s.calls ∧
      s'.tasks = s.tasks.set i { t with pc := Loc.done }) ∧
    (∀ a s', step s a = some s' →
      ∀ mid, is_processed s.store mid = true → is_processed s'.store mid = true) := by
  refine ⟨(reachable_inv s hr).2.2.2.2.2, ?_, ?_, ?_⟩
  · intro i t ts s' hget hstep mid hmid
    unfold step at hstep
    split at hstep
    · exact Option.noConfusion hstep
    replace hstep : stepGateEnter s i ts = some s' := hstep
    unfold stepGateEnter at hstep
    simp only [hget] at hstep
    by_cases hpc : t.pc = Loc.ready
    case neg => rw [if_neg hpc] at hstep; exact Option.noConfusion hstep
    rw [if_pos hpc] at hstep
    simp only [hmid] at hstep
    split at hstep
    · cases hstep
      exact is_processed_storePut_self s.store mid _ _
    · cases hstep
      exact is_processed_storePut_self s.store mid _ _
  · intro i t s' hget hpc hproc hstep
    obtain ⟨mid, hmid, hisp⟩ := hproc
    unfold step at hstep
    split at hstep
    · exact Option.noConfusion hstep
    replace hstep : stepAdmitMsg s i = some s' := hstep
    unfold stepAdmitMsg at hstep
    simp only [hget] at hstep
    rw [if_pos hpc] at hstep
    simp only [hmid] at hstep
    rw [if_pos (by simp [hisp])] at hstep
    cases hstep
    exact ⟨rfl, rfl, rfl, rfl⟩
  · intro a s' hstep mid hm
    cases ha : a with
    | invokeOk i r =>
      rw [ha] at hstep
      unfold step at hstep
      split at hstep
      · exact Option.noConfusion hstep
      replace hstep : stepInvokeOk s i r = some s' := hstep
      unfold stepInvokeOk at hstep
      cases hget : s.tasks.get? i with
      | none => rw [hget] at hstep; exact Option.noConfusion hstep
      | some t =>
        simp only [hget] at hstep
        by_cases hpc : t.pc = Loc.invoking
        case neg => rw [if_neg hpc] at hstep; exact Option.noConfusion hstep
        rw [if_pos hpc] at hstep
        have hfr := frame_stepAfterRun s s' i t r.code_changes (Option.some.inj hstep)
        rw [hfr.1]
        exact hm
    | drainOk i r =>
      rw [ha] at hstep
      unfold step at hstep
      split at hstep
      · exact Option.noConfusion hstep
      replace hstep : stepDrainOk s i r = some s' := hstep
      unfold stepDrainOk at hstep
      cases hget : s.tasks.get? i with
      | none => rw [hget] at hstep; exact Option.noConfusion hstep
      | some t =>
        simp only [hget] at hstep
        split at hstep
        case _ q needs hpcc =>
          have hfr := frame_stepAfterRun _ s' i t (needs || r.code_changes)
            (Option.some.inj hstep)
          rw [hfr.1]
          exact hm
        case _ => exact Option.noConfusion hstep
    | arrive info =>
      rw [ha] at hstep
      exact (frame_nonexit s s' _ hstep (by intro _ _ hx; cases hx)
        (by intro _ _ hx; cases hx)).2 mid hm
    | admitMsg i =>
      rw [ha] at hstep
      exact (frame_nonexit s s' _ hstep (by intro _ _ hx; cases hx)
        (by intro _ _ hx; cases hx)).2 mid hm
    | resolve i env =>
      rw [ha] at hstep
      exact (frame_nonexit s s' _ hstep (by intro _ _ hx; cases hx)
        (by intro _ _ hx; cases hx)).2 mid hm
    | gateEnter i ts =>
      rw [ha] at hstep
      exact (frame_nonexit s s' _ hstep (by intro _ _ hx; cases hx)
        (by intro _ _ hx; cases hx)).2 mid hm
    | invokeFail i =>
      rw [ha] at hstep
      exact (frame_nonexit s s' _ hstep (by intro _ _ hx; cases hx)
        (by intro _ _ hx; cases hx)).2 mid hm
    | drainFail i =>
      rw [ha] at hstep
      exact (frame_nonexit s s' _ hstep (by intro _ _ hx; cases hx)
        (by intro _ _ hx; cases hx)).2 mid hm

/-- C10 witness: a concrete admitted message is archived by its gate-entry
step. -/
theorem C10_archive_before_invoke_witness :
    ∃ s', step c10mid (Action.gateEnter 0 "10:00") = some s' ∧
      is_processed s'.store "A1" = true := by
  cases hs : step c10mid (Action.gateEnter 0 "10:00") with
  | none => exact absurd hs (by decide)
  | some s' =>
    exact ⟨s', rfl,
      (C10_archive_before_invoke c10mid ⟨c10acts, by decide⟩).2.1 0 c10task "10:00" s'
        (by decide) hs "A1" rfl⟩

end ClaimTheorems

section RunnerClaimTheorems

open MiniJson ClaudeRunnerM Scripts

/-- C5 counterexample: at exactly `now - last_activity = 1800` seconds the
code still returns the stored token (`time.time() - last_activity >
SESSION_TIMEOUT` is strict), contradicting the claim's boundary clause that
exactly 1800 seconds counts as expired. -/
theorem C5_boundary_counterexample :
    (get_session_id [("u1", ⟨some "S1", 0⟩)] "u1" 1800).1 = some "S1" := rfl

/-- C5 (amended): `get_session_id` returns the stored continuation token
while `now - t ≤ 1800` seconds (the session store unchanged) and `none`
strictly after 1800 seconds, deleting the expired record as a side effect
of the read; at the boundary of exactly 1800 seconds the session still
counts as valid. -/
theorem C5_session_validity (sessions : Sessions) (u sid : String) (t now : Int)
    (h : Sessions.lookup sessions u = some ⟨some sid, t⟩) :
    (now - t ≤ SESSION_TIMEOUT → get_session_id sessions u now = (some sid, sessions)) ∧
    (now - t > SESSION_TIMEOUT →
      get_session_id sessions u now = (none, Sessions.erase sessions u)) := by
  constructor <;> intro hc <;>
    simp [get_session_id, h, SESSION_TIMEOUT] at hc ⊢ <;> omega

/-- C5 witness: a concrete session read inside the validity window. -/
theorem C5_session_validity_witness :
    get_session_id [("u1", ⟨some "S1", 100⟩)] "u1" 1900 =
      (some "S1", [("u1", ⟨some "S1", 100⟩)]) :=
  (C5_session_validity [("u1", ⟨some "S1", 100⟩)] "u1" "S1" 100 1900 rfl).1 (by decide)

/-- C6 counterexample: the envelope `{"result": "3"}` is one of the three
accepted shapes (the result nested under `result` as a JSON-encoded string),
yet parsing raises an `AttributeError` past the parsing boundary — the
decoded result is the number 3 and `result.get(...)` fails — refuting
"malformed output never raises past this boundary". -/
theorem C6_never_raises_counterexample :
    parse_claude_output "\x7b\"result\": \"3\"\x7d" none = .error .attributeError := rfl

/-- C6 (amended): for a JSON-object envelope the invoker accepts the
structured result inlined, under `structured_output`, or under `result` as a
JSON-encoded string; when the selected result is an object — directly or
after decoding — the flags are read with `conversation_finished` and
`code_changes` defaulting to false when absent, and an empty or undecodable
result string degrades to the same defaults; but a result that decodes to a
JSON non-object raises an `AttributeError`, and an envelope that is not
valid JSON raises a `RuntimeError`. -/
theorem C6_result_normalization (fs : List (String × JValue)) (sid : Option String) :
    (∀ rs, select_result fs = .obj rs →
      parse_envelope (.obj fs) sid =
        .ok ⟨truthy (objGet rs "conversation_finished"),
             truthy (objGet rs "code_changes"), "", select_session fs sid⟩) ∧
    (∀ s rs, select_result fs = .str s → s ≠ "" → jsonParse s = some (.obj rs) →
      parse_envelope (.obj fs) sid =
        .ok ⟨truthy (objGet rs "conversation_finished"),
             truthy (objGet rs "code_changes"), "", select_session fs sid⟩) ∧
    (∀ s, select_result fs = .str s → (s = "" ∨ jsonParse s = none) →
      parse_envelope (.obj fs) sid = .ok ⟨false, false, "", select_session fs sid⟩) ∧
    (∀ raw output, jsonParse raw = some output →
      parse_claude_output raw sid =
        (parse_envelope output sid).map (fun r => { r with raw_output := raw })) ∧
    (∀ raw, jsonParse raw = none →
      parse_claude_output raw sid = .error (.runtimeError "Claude returned invalid JSON")) := by
  refine ⟨?_, ?_, ?_, ?_, ?_⟩
  · intro rs h
    have hsel := h
    simp only [select_result, objGet] at hsel
    simp only [parse_envelope, getAttr?, bind, Except.bind, pure, Except.pure, hsel]
    simp [select_session, objGet, truthy]
  · intro s rs h hne hdec
    have hsel := h
    simp only [select_result, objGet] at hsel
    simp only [parse_envelope, getAttr?, bind, Except.bind, pure, Except.pure, hsel]
    simp [hne, hdec, select_session, objGet, truthy, Except.map]
  · intro s h hcase
    have hsel := h
    simp only [select_result, objGet] at hsel
    simp only [parse_envelope, getAttr?, bind, Except.bind, pure, Except.pure, hsel]
    rcases hcase with he | hd
    · simp [he, select_session, objGet, truthy]
    · by_cases he : s = ""
      · simp [he, select_session, objGet, truthy]
      · simp [he, hd, select_session, objGet, truthy]
  · intro raw output h
    simp [parse_claude_output, h]
  · intro raw h
    simp [parse_claude_output, h]

/-- C6 witness: a result under `structured_output` with only
`conversation_finished` present parses with `code_changes` defaulting to
false. -/
theorem C6_result_normalization_witness :
    parse_envelope
      (.obj [("structured_output", .obj [("conversation_finished", .bool true)])]) none =
      .ok ⟨true, false, "", .null⟩ := by
  have h := (C6_result_normalization
    [("structured_output", .obj [("conversation_finished", .bool true)])] none).1
    [("conversation_finished", .bool true)] rfl
  simpa [objGet, truthy, select_session, pyOr] using h

/-- C8 counterexample: a scheduled-task invocation whose external process
runs for 10^9 seconds is not terminated after 1800 seconds — `run_claude_task`
awaits `process.communicate()` with no timeout and processes the output
normally — refuting the claim that *every* unattended/scheduled invocation
is bounded by a 30-minute timeout. -/
theorem C8_no_timeout_counterexample :
    run_claude_task
      ⟨10 ^ 9, 0, "\x7b\"structured_output\": \x7b\"conversation_finished\": false\x7d\x7d"⟩ =
      .ok (.obj [("conversation_finished", .bool false)]) := rfl

/-- C8 (amended): the proactive check-in runner bounds its invocation by a
1800-second wall-clock timeout, killing the process and treating the outcome
as `{"conversation_finished": true}` with no error raised; the generic
scheduled-task runner imposes no timeout — its outcome is independent of the
process duration. -/
theorem C8_timeout_behaviour :
    (∀ p : ProcOutcome, p.duration > 1800 →
      run_proactive_checkin p = .ok (.obj [("conversation_finished", .bool true)])) ∧
    (∀ d r out, run_claude_task ⟨d, r, out⟩ = run_claude_task ⟨0, r, out⟩) := by
  constructor
  · intro p hp
    simp [run_proactive_checkin, hp]
  · intro d r out
    rfl

/-- C8 witness: the timeout default at a concrete over-long run. -/
theorem C8_timeout_behaviour_witness :
    run_proactive_checkin ⟨1801, 0, ""⟩ =
      .ok (.obj [("conversation_finished", .bool true)]) :=
  C8_timeout_behaviour.1 ⟨1801, 0, ""⟩ (by decide)

end RunnerClaimTheorems
